import Mathlib

/-!
Verification of the structured-output extraction core of the
`package-intelligence` repository against its natural-language specification.

The development shallowly embeds the TypeScript sources
`src/parsing/parse-text.ts` (text sanitizer `parseText` and the
`parse-object` module: `parseObject`, `extractJsonString`,
`extractBySchemaType`, `extractObject`, `extractArray`, `extractPrimitive`,
`convertToPrimitive`, `findJsonStructures`, `findLongestString`,
`unescapeJsonValues`, `unescapeString`), `src/result/result.ts`
(`GenerationResult`, `classifyError`) and the response-handling part of
`src/generation/generate-structured.ts` (`generateStructured`).

Texts are modelled as `List Char` internally, with `String` wrappers at the
outer interfaces.  JavaScript numbers are modelled exactly (`ℚ` plus `NaN`
and signed infinity) rather than as IEEE doubles; none of the properties
below depend on floating-point rounding.  Zod schemas are modelled as a
closed tagged variant mirroring the runtime `instanceof` dispatch of
`extractBySchemaType`, with `validate` following Zod v4 parse semantics for
the constructs the theorems exercise.
-/

/-- A JavaScript number: NaN, signed infinity, or an exact rational.
`JSON.parse` only ever produces the `rat` arm; `NaN`/`Infinity` arise from
the `Number(...)` coercion in `convertToPrimitive`.  IEEE-754 rounding is
not modelled; no claim below distinguishes a double from the exact value of
its source literal. -/
inductive JsNum where
  | nan : JsNum
  | inf (neg : Bool) : JsNum
  | rat (q : ℚ) : JsNum
deriving DecidableEq, Repr

/-- The loosely-typed parsed tree produced by `JSON.parse`: maps with string
keys in insertion order, ordered lists, strings, numbers, booleans, null. -/
inductive JsonValue where
  | null : JsonValue
  | bool (b : Bool) : JsonValue
  | num (n : JsNum) : JsonValue
  | str (s : String) : JsonValue
  | arr (xs : List JsonValue) : JsonValue
  | obj (kvs : List (String × JsonValue)) : JsonValue
deriving Repr

/-- JSON whitespace accepted by `JSON.parse` between tokens. -/
def jsonWs (c : Char) : Bool :=
  c = ' ' || c = '\t' || c = '\n' || c = '\r'

/-- Drop leading JSON whitespace. -/
def skipJsonWs : List Char → List Char
  | [] => []
  | c :: cs => if jsonWs c then skipJsonWs cs else c :: cs

/-- Decimal digit test. -/
def isDigitCh (c : Char) : Bool := '0' ≤ c ∧ c ≤ '9'

/-- Hex digit value. -/
def hexVal (c : Char) : Option Nat :=
  if '0' ≤ c ∧ c ≤ '9' then some (c.toNat - '0'.toNat)
  else if 'a' ≤ c ∧ c ≤ 'f' then some (c.toNat - 'a'.toNat + 10)
  else if 'A' ≤ c ∧ c ≤ 'F' then some (c.toNat - 'A'.toNat + 10)
  else none

/-- Digits of a natural number read left to right into a value. -/
def digitsToNat (ds : List Char) : Nat :=
  ds.foldl (fun acc d => acc * 10 + (d.toNat - '0'.toNat)) 0

/-- Longest leading run of decimal digits. -/
def spanDigits (cs : List Char) : List Char × List Char :=
  match cs with
  | [] => ([], [])
  | c :: rest =>
    if isDigitCh c then
      let (ds, r) := spanDigits rest
      (c :: ds, r)
    else ([], cs)

/-- A code unit from a `\uXXXX` escape.  A value in the surrogate range that
does not pair up is replaced by U+FFFD (JavaScript keeps the lone surrogate
in its UTF-16 string; Lean `Char` cannot, and no claim inspects such a
string). -/
def charOfCode (n : Nat) : Char :=
  if n < 0xd800 ∨ (0xdfff < n ∧ n < 0x110000) then Char.ofNat n
  else '�'

/-- Body of a strict JSON string literal (after the opening quote): returns
the decoded characters and the input remaining after the closing quote.
Unescaped control characters below U+0020 are rejected, as `JSON.parse`
rejects them. -/
def parseJsonStringBody : List Char → Option (List Char × List Char)
  | [] => none
  | '"' :: rest => some ([], rest)
  | '\\' :: esc =>
    match esc with
    | '"' :: rest => do let (s, r) ← parseJsonStringBody rest; pure ('"' :: s, r)
    | '\\' :: rest => do let (s, r) ← parseJsonStringBody rest; pure ('\\' :: s, r)
    | '/' :: rest => do let (s, r) ← parseJsonStringBody rest; pure ('/' :: s, r)
    | 'b' :: rest => do let (s, r) ← parseJsonStringBody rest; pure ('\x08' :: s, r)
    | 'f' :: rest => do let (s, r) ← parseJsonStringBody rest; pure ('\x0c' :: s, r)
    | 'n' :: rest => do let (s, r) ← parseJsonStringBody rest; pure ('\n' :: s, r)
    | 'r' :: rest => do let (s, r) ← parseJsonStringBody rest; pure ('\r' :: s, r)
    | 't' :: rest => do let (s, r) ← parseJsonStringBody rest; pure ('\t' :: s, r)
    | 'u' :: h1 :: h2 :: h3 :: h4 :: rest => do
      let a ← hexVal h1
      let b ← hexVal h2
      let c ← hexVal h3
      let d ← hexVal h4
      let (s, r) ← parseJsonStringBody rest
      pure (charOfCode (((a * 16 + b) * 16 + c) * 16 + d) :: s, r)
    | _ => none
  | c :: rest =>
    if c.toNat < 0x20 then none
    else do let (s, r) ← parseJsonStringBody rest; pure (c :: s, r)

/-- Strict JSON number literal: `-? (0 | [1-9][0-9]*) (. [0-9]+)? ([eE][+-]?[0-9]+)?`,
evaluated exactly as a rational. -/
def parseJsonNumber (cs : List Char) : Option (ℚ × List Char) := do
  let (neg, cs1) :=
    match cs with
    | '-' :: rest => (true, rest)
    | _ => (false, cs)
  let (intDs, cs2) := spanDigits cs1
  match intDs with
  | [] => none
  | d0 :: drest =>
    -- a leading zero admits no further integer digits
    if d0 = '0' ∧ drest ≠ [] then none else
    let intPart : ℚ := (digitsToNat intDs : ℚ)
    let (fracPart, cs3) :=
      match cs2 with
      | '.' :: afterDot =>
        let (fracDs, r) := spanDigits afterDot
        (some (fracDs, r), r)
      | _ => (none, cs2)
    match fracPart with
    | some ([], _) => none
    | _ =>
      let fracQ : ℚ :=
        match fracPart with
        | some (fracDs, _) => (digitsToNat fracDs : ℚ) / ((10 : ℚ) ^ fracDs.length)
        | none => 0
      let (expPart, cs4) :=
        match cs3 with
        | e :: afterE =>
          if e = 'e' ∨ e = 'E' then
            let (esign, afterSign) :=
              match afterE with
              | '+' :: r => ((1 : Int), r)
              | '-' :: r => ((-1 : Int), r)
              | _ => ((1 : Int), afterE)
            let (expDs, r) := spanDigits afterSign
            match expDs with
            | [] => (none, cs3)
            | _ => (some (esign * (digitsToNat expDs : Int)), r)
          else (none, cs3)
        | [] => (none, cs3)
      match cs3, expPart with
      | _ :: _, none =>
        -- an `e` with no digits is a syntax error only when an `e` was present
        if cs3.head? = some 'e' ∨ cs3.head? = some 'E' then none
        else
          let base := intPart + fracQ
          some ((if neg then -base else base), cs3)
      | _, _ =>
        let base := (intPart + fracQ) * (10 : ℚ) ^ (expPart.getD 0)
        some ((if neg then -base else base), cs4)

/-- Insert a key in JavaScript object semantics: a repeated key keeps its
first position but takes the last value, as `JSON.parse` does. -/
def jsObjInsert (kvs : List (String × JsonValue)) (k : String) (v : JsonValue) :
    List (String × JsonValue) :=
  match kvs with
  | [] => [(k, v)]
  | (k0, v0) :: rest =>
    if k0 = k then (k0, v) :: rest else (k0, v0) :: jsObjInsert rest k v

mutual

/-- One strict JSON value starting at the head of the input (no leading
whitespace), returning the value and the unconsumed remainder.  The fuel
argument only bounds nesting; `jsonParseList` supplies enough of it. -/
def parseJsonValue : Nat → List Char → Option (JsonValue × List Char)
  | 0, _ => none
  | _ + 1, [] => none
  | fuel + 1, c :: cs =>
    match c with
    | '{' =>
      match skipJsonWs cs with
      | '}' :: rest => some (.obj [], rest)
      | cs1 => do
        let (kvs, r) ← parseJsonMembers fuel cs1 []
        pure (.obj kvs, r)
    | '[' =>
      match skipJsonWs cs with
      | ']' :: rest => some (.arr [], rest)
      | cs1 => do
        let (xs, r) ← parseJsonElements fuel cs1 []
        pure (.arr xs, r)
    | '"' => do
      let (s, r) ← parseJsonStringBody cs
      pure (.str (String.mk s), r)
    | 't' =>
      match cs with
      | 'r' :: 'u' :: 'e' :: rest => some (.bool true, rest)
      | _ => none
    | 'f' =>
      match cs with
      | 'a' :: 'l' :: 's' :: 'e' :: rest => some (.bool false, rest)
      | _ => none
    | 'n' =>
      match cs with
      | 'u' :: 'l' :: 'l' :: rest => some (.null, rest)
      | _ => none
    | _ => do
      let (q, r) ← parseJsonNumber (c :: cs)
      pure (.num (.rat q), r)

/-- Members of a JSON object after the opening brace (first member expected
at the head, whitespace already skipped). -/
def parseJsonMembers : Nat → List Char → List (String × JsonValue) →
    Option (List (String × JsonValue) × List Char)
  | 0, _, _ => none
  | fuel + 1, cs, acc =>
    match cs with
    | '"' :: body => do
      let (k, r1) ← parseJsonStringBody body
      match skipJsonWs r1 with
      | ':' :: r2 => do
        let (v, r3) ← parseJsonValue fuel (skipJsonWs r2)
        let acc1 := jsObjInsert acc (String.mk k) v
        match skipJsonWs r3 with
        | ',' :: r4 => parseJsonMembers fuel (skipJsonWs r4) acc1
        | '}' :: r4 => some (acc1, r4)
        | _ => none
      | _ => none
    | _ => none

/-- Elements of a JSON array after the opening bracket (first element
expected at the head, whitespace already skipped). -/
def parseJsonElements : Nat → List Char → List JsonValue →
    Option (List JsonValue × List Char)
  | 0, _, _ => none
  | fuel + 1, cs, acc => do
    let (v, r1) ← parseJsonValue fuel cs
    match skipJsonWs r1 with
    | ',' :: r2 => parseJsonElements fuel (skipJsonWs r2) (acc ++ [v])
    | ']' :: r2 => some (acc ++ [v], r2)
    | _ => none

end

/-- `JSON.parse` on a character list: one value, with only whitespace around
it.  Each unit of fuel is spent only after consuming at least one input
character, so `length + 1` units can never run out. -/
def jsonParseList (cs : List Char) : Option JsonValue :=
  match parseJsonValue (cs.length + 1) (skipJsonWs cs) with
  | some (v, rest) => if skipJsonWs rest = [] then some v else none
  | none => none

/-- `JSON.parse` on a string. -/
def jsonParse (s : String) : Option JsonValue :=
  jsonParseList s.data

/-! ## JavaScript string and value helpers -/

/-- The JavaScript `\s` / `trim` whitespace class: WhiteSpace plus
LineTerminator code points. -/
def jsWhitespaceChar (c : Char) : Bool :=
  let n := c.toNat
  (0x09 ≤ n ∧ n ≤ 0x0d) || n = 0x20 || n = 0xa0 || n = 0x1680 ||
  (0x2000 ≤ n ∧ n ≤ 0x200a) || n = 0x2028 || n = 0x2029 || n = 0x202f ||
  n = 0x205f || n = 0x3000 || n = 0xfeff

/-- Removal of a trailing whitespace run: a character is dropped exactly
when it is whitespace and everything after it is dropped. -/
def dropTrailingWs : List Char → List Char
  | [] => []
  | c :: rest =>
    let r := dropTrailingWs rest
    if r = [] ∧ jsWhitespaceChar c then [] else c :: r

/-- `String.prototype.trim`: drop the leading whitespace run and the
trailing whitespace run. -/
def jsTrimList (cs : List Char) : List Char :=
  dropTrailingWs (cs.dropWhile jsWhitespaceChar)

/-- `String.prototype.trim` on `String`. -/
def jsTrim (s : String) : String := String.mk (jsTrimList s.data)

/-- JavaScript truthiness (`Boolean(value)`) of a parsed JSON value: `false`
for `null`, `false`, `0`, `NaN` and the empty string; `true` for everything
else, including empty arrays and objects. -/
def jsTruthy : JsonValue → Bool
  | .null => false
  | .bool b => b
  | .num .nan => false
  | .num (.inf _) => true
  | .num (.rat q) => q ≠ 0
  | .str s => s ≠ ""
  | .arr _ => true
  | .obj _ => true

/-- Leading run satisfying `hexVal`. -/
def spanHexDigits (cs : List Char) : List Char × List Char :=
  match cs with
  | [] => ([], [])
  | c :: rest =>
    if (hexVal c).isSome then
      let (ds, r) := spanHexDigits rest
      (c :: ds, r)
    else ([], cs)

/-- Value of a run of hex digits. -/
def hexDigitsToNat (ds : List Char) : Nat :=
  ds.foldl (fun acc d => acc * 16 + (hexVal d).getD 0) 0

/-- The ECMAScript string-to-number conversion (`Number(string)`): trim the
JS whitespace, empty means `0`, then a signed decimal literal, a signed
`Infinity`, or an unsigned `0x`/`0o`/`0b` radix literal, consuming the whole
string; anything else is `NaN`.  Values are kept exact rather than rounded
to a double. -/
def jsStringToNumber (cs : List Char) : JsNum :=
  let t := jsTrimList cs
  match t with
  | [] => .rat 0
  | '0' :: x :: rest =>
    if x = 'x' ∨ x = 'X' then
      let (ds, r) := spanHexDigits rest
      if ds ≠ [] ∧ r = [] then .rat (hexDigitsToNat ds : ℚ) else .nan
    else if x = 'o' ∨ x = 'O' then
      let (ds, r) := rest.span (fun c => '0' ≤ c ∧ c ≤ '7')
      if ds ≠ [] ∧ r = [] then
        .rat ((ds.foldl (fun acc d => acc * 8 + (d.toNat - '0'.toNat)) 0 : Nat) : ℚ)
      else .nan
    else if x = 'b' ∨ x = 'B' then
      let (ds, r) := rest.span (fun c => c = '0' ∨ c = '1')
      if ds ≠ [] ∧ r = [] then
        .rat ((ds.foldl (fun acc d => acc * 2 + (d.toNat - '0'.toNat)) 0 : Nat) : ℚ)
      else .nan
    else jsDecimalLiteral t
  | _ => jsDecimalLiteral t
where
  /-- Signed `StrDecimalLiteral`, consuming the whole input. -/
  jsDecimalLiteral (t : List Char) : JsNum :=
    let (neg, u) :=
      match t with
      | '+' :: r => (false, r)
      | '-' :: r => (true, r)
      | _ => (false, t)
    if u = "Infinity".data then .inf neg
    else
      let (intDs, r1) := spanDigits u
      let (fracDs, r2) :=
        match r1 with
        | '.' :: r => spanDigits r
        | _ => ([], r1)
      if intDs = [] ∧ fracDs = [] then .nan
      else
        let mant : ℚ := (digitsToNat intDs : ℚ) +
          (digitsToNat fracDs : ℚ) / ((10 : ℚ) ^ fracDs.length)
        let (value, r4) :=
          match r2 with
          | e :: r =>
            if e = 'e' ∨ e = 'E' then
              let (esign, r3) :=
                match r with
                | '+' :: rr => ((1 : Int), rr)
                | '-' :: rr => ((-1 : Int), rr)
                | _ => ((1 : Int), r)
              let (expDs, rr) := spanDigits r3
              if expDs = [] then (mant, r2)
              else (mant * (10 : ℚ) ^ (esign * (digitsToNat expDs : Int)), rr)
            else (mant, r2)
          | [] => (mant, ([] : List Char))
        if r4 = [] then .rat (if neg then -value else value) else .nan

/-- Decimal rendering of a rational whose decimal expansion terminates (the
only rationals this development constructs).  Approximates JavaScript double
formatting: exact small values print identically; the exponential notation
JS switches to beyond `1e21` is not modelled (unreachable in the claims). -/
def ratDecimalRepr (q : ℚ) : String :=
  if q.den = 1 then toString q.num
  else
    let sign := if q < 0 then "-" else ""
    let a : ℚ := |q|
    let ip : Nat := a.floor.toNat
    let fr : ℚ := a - (ip : ℚ)
    let k := (List.range 64).findIdx? (fun k => ((fr * (10 : ℚ) ^ (k + 1)).den = 1 : Bool))
    match k with
    | some k0 =>
      let digits := (fr * (10 : ℚ) ^ (k0 + 1)).num.toNat
      let ds := toString digits
      let pad := String.mk (List.replicate (k0 + 1 - ds.length) '0')
      sign ++ toString ip ++ "." ++ pad ++ ds
    | none => sign ++ toString a.num ++ "/" ++ toString a.den

/-- JavaScript number-to-string. -/
def jsNumToString : JsNum → String
  | .nan => "NaN"
  | .inf true => "-Infinity"
  | .inf false => "Infinity"
  | .rat q => ratDecimalRepr q

mutual

/-- JavaScript `String(value)` on a parsed JSON value. -/
def jsValueToString : JsonValue → String
  | .null => "null"
  | .bool true => "true"
  | .bool false => "false"
  | .num n => jsNumToString n
  | .str s => s
  | .arr xs => jsArrayJoin xs
  | .obj _ => "[object Object]"

/-- `Array.prototype.toString` (`join(",")`): `null` elements render empty. -/
def jsArrayJoin : List JsonValue → String
  | [] => ""
  | [x] => jsJoinElem x
  | x :: y :: rest => jsJoinElem x ++ "," ++ jsArrayJoin (y :: rest)

/-- One joined element: `null` becomes empty, the rest use `String(value)`. -/
def jsJoinElem : JsonValue → String
  | .null => ""
  | .arr xs => jsArrayJoin xs
  | v => jsValueToString v

end

/-- JavaScript `Number(value)` on a parsed JSON value.  A plain object
converts through `"[object Object]"`, hence `NaN`. -/
def jsToNumber : JsonValue → JsNum
  | .null => .rat 0
  | .bool true => .rat 1
  | .bool false => .rat 0
  | .num n => n
  | .str s => jsStringToNumber s.data
  | .arr xs => jsStringToNumber (jsArrayJoin xs).data
  | .obj _ => .nan

/-- Whether `pat` is a leading run of `hay`. -/
def leadsWith : List Char → List Char → Bool
  | [], _ => true
  | _ :: _, [] => false
  | p :: ps, h :: hs => p = h && leadsWith ps hs

/-- `String.prototype.includes` on character lists. -/
def hasSubstr (hay pat : List Char) : Bool :=
  match hay with
  | [] => leadsWith pat []
  | _ :: t => leadsWith pat hay || hasSubstr t pat

/-- `String.prototype.includes`. -/
def strIncludes (hay pat : String) : Bool := hasSubstr hay.data pat.data

/-! ## Text sanitizer (`parseText`, src/parsing/parse-text.ts lines 1-69) -/

/-- The `INVISIBLE_CHARS_RE` character class. -/
def isInvisibleChar (c : Char) : Bool :=
  let n := c.toNat
  n = 0xad || n = 0x180e || (0x200b ≤ n ∧ n ≤ 0x200c) || (0x200e ≤ n ∧ n ≤ 0x200f) ||
  (0x202a ≤ n ∧ n ≤ 0x202e) || (0x2060 ≤ n ∧ n ≤ 0x2064) ||
  (0x2066 ≤ n ∧ n ≤ 0x2069) || n = 0xfeff

/-- The `ASCII_CTRL_RE` character class: C0 controls except tab, LF, CR,
plus DEL. -/
def isAsciiCtrl (c : Char) : Bool :=
  let n := c.toNat
  n ≤ 0x08 || n = 0x0b || n = 0x0c || (0x0e ≤ n ∧ n ≤ 0x1f) || n = 0x7f

/-- The `SPACE_LIKE_RE` character class. -/
def isSpaceLike (c : Char) : Bool :=
  let n := c.toNat
  n = 0xa0 || n = 0x1680 || (0x2000 ≤ n ∧ n ≤ 0x200a) || n = 0x202f ||
  n = 0x205f || n = 0x3000

/-- The `EM_DASH_SEPARATOR_RE` dash class `[—–―‒]`. -/
def isSepDash (c : Char) : Bool :=
  let n := c.toNat
  n = 0x2014 || n = 0x2013 || n = 0x2015 || n = 0x2012

/-- Strip one leading byte-order mark (`charCodeAt(0) === 0xfeff`). -/
def stripBom (cs : List Char) : List Char :=
  match cs with
  | c :: rest => if c.toNat = 0xfeff then rest else c :: rest
  | [] => []

/-- `CR_RE`: replace `\r\n` or lone `\r` by `\n`. -/
def normalizeCR : List Char → List Char
  | '\r' :: '\n' :: rest => '\n' :: normalizeCR rest
  | '\r' :: rest => '\n' :: normalizeCR rest
  | c :: rest => c :: normalizeCR rest
  | [] => []

/-- Consume an exact literal prefix. -/
def dropExact : List Char → List Char → Option (List Char)
  | [], cs => some cs
  | p :: ps, c :: cs => if c = p then dropExact ps cs else none
  | _ :: _, [] => none

/-- Consume one expected character. -/
def expectChar (c : Char) : List Char → Option (List Char)
  | x :: rest => if x = c then some rest else none
  | [] => none

/-- Try `CITATION_RE` (` *\(oaicite:\d+\)\x7bindex=\d+\x7d`) at the head of
the input; on success return the remainder after the match. -/
def citationTryAt (cs : List Char) : Option (List Char) :=
  let r1 := cs.dropWhile (fun c => c = ' ')
  match dropExact "(oaicite:".data r1 with
  | some r2 =>
    match spanDigits r2 with
    | ([], _) => none
    | (_ :: _, r3) =>
      match expectChar ')' r3 with
      | some r4 =>
        match dropExact "\x7bindex=".data r4 with
        | some r5 =>
          match spanDigits r5 with
          | ([], _) => none
          | (_ :: _, r6) => expectChar '\x7d' r6
        | none => none
      | none => none
  | none => none

/-- Global replacement of `CITATION_RE` by the empty string, scanning left
to right and resuming after each match, as `String.prototype.replace` with
a global regex does.  Fuel is consumed one unit per scan position, so the
input length is always enough. -/
def removeCitationsFuel : Nat → List Char → List Char
  | 0, cs => cs
  | fuel + 1, cs =>
    match cs with
    | [] => []
    | c :: rest =>
      (citationTryAt (c :: rest)).elim (c :: removeCitationsFuel fuel rest)
        (fun rem => removeCitationsFuel fuel rem)

/-- Global `CITATION_RE` removal. -/
def removeCitations (cs : List Char) : List Char :=
  removeCitationsFuel cs.length cs

/-- Partial model of Unicode NFKC (`String.prototype.normalize("NFKC")`),
as a per-character compatibility map: the space-family compatibility
decompositions, the ellipsis, and two latin ligatures; identity elsewhere
(in particular on all of ASCII, where real NFKC is also the identity).
Composition and reordering of combining sequences are not modelled; no
theorem below evaluates the sanitizer on a combining sequence. -/
def nfkcChar (c : Char) : List Char :=
  let n := c.toNat
  if n = 0xa0 || (0x2000 ≤ n ∧ n ≤ 0x200a) || n = 0x202f || n = 0x205f || n = 0x3000 then [' ']
  else if n = 0x2026 then ['.', '.', '.']
  else if n = 0xfb01 then ['f', 'i']
  else if n = 0xfb02 then ['f', 'l']
  else [c]

/-- NFKC model over a text. -/
def nfkc (cs : List Char) : List Char := cs.flatMap nfkcChar

/-- `INVISIBLE_CHARS_RE` removal. -/
def removeInvisible (cs : List Char) : List Char :=
  cs.filter (fun c => !isInvisibleChar c)

/-- `ASCII_CTRL_RE` removal. -/
def removeAsciiCtrl (cs : List Char) : List Char :=
  cs.filter (fun c => !isAsciiCtrl c)

/-- Try `EM_DASH_SEPARATOR_RE` (`\s+[—–―‒]\s*|\s*[—–―‒]\s+`) at the head of
the input; on success return the remainder after the match.  Only the
maximal whitespace runs can take part in a match, so the regex engine's
backtracking never changes the outcome. -/
def emDashTryAt (cs : List Char) : Option (List Char) :=
  let w1 := cs.takeWhile jsWhitespaceChar
  match cs.dropWhile jsWhitespaceChar with
  | d :: rest =>
    if isSepDash d then
      if w1 ≠ [] ∨ rest.takeWhile jsWhitespaceChar ≠ [] then
        some (rest.dropWhile jsWhitespaceChar)
      else none
    else none
  | [] => none

/-- Global replacement of `EM_DASH_SEPARATOR_RE` by `", "`. -/
def emDashReplaceFuel : Nat → List Char → List Char
  | 0, cs => cs
  | fuel + 1, cs =>
    match cs with
    | [] => []
    | c :: rest =>
      (emDashTryAt (c :: rest)).elim (c :: emDashReplaceFuel fuel rest)
        (fun rem => ',' :: ' ' :: emDashReplaceFuel fuel rem)

/-- Global `EM_DASH_SEPARATOR_RE` → `", "`. -/
def emDashReplace (cs : List Char) : List Char :=
  emDashReplaceFuel cs.length cs

/-- `SPACE_LIKE_RE` → one ASCII space. -/
def spaceLikeToSpace (cs : List Char) : List Char :=
  cs.map (fun c => if isSpaceLike c then ' ' else c)

/-- The five `TYPOGRAPHY_REPLACEMENTS`, applied in source order. -/
def typoApply (cs : List Char) : List Char :=
  let s1 := cs.map (fun c =>
    if c.toNat = 0x2018 || c.toNat = 0x2019 || c.toNat = 0x201a then '\'' else c)
  let s2 := s1.map (fun c =>
    if c.toNat = 0x201c || c.toNat = 0x201d || c.toNat = 0x201e then '"' else c)
  let s3 := s2.map (fun c =>
    if c.toNat = 0x2013 || c.toNat = 0x2014 then '-' else c)
  let s4 := s3.flatMap (fun c =>
    if c.toNat = 0x2026 then ['.', '.', '.'] else [c])
  s4.map (fun c =>
    if c.toNat = 0x2022 || c.toNat = 0x25aa || c.toNat = 0x25ab ||
       c.toNat = 0x25b8 || c.toNat = 0x25b9 || c.toNat = 0x25cf then '-' else c)

/-- `MULTIPLE_SPACES_RE` (` {2,}` → one space): collapse runs of ASCII
spaces to a single space. -/
def collapseSpacesList : List Char → List Char
  | [] => []
  | c :: rest =>
    if c = ' ' then
      match rest with
      | c2 :: _ => if c2 = ' ' then collapseSpacesList rest else ' ' :: collapseSpacesList rest
      | [] => [' ']
    else c :: collapseSpacesList rest

/-- The two togglable behaviors of `parseText`, both `true` by default. -/
structure ParseTextOptions where
  collapseSpaces : Bool
  normalizeEmDashesToCommas : Bool
deriving DecidableEq, Repr

/-- The default options (`collapseSpaces: true`,
`normalizeEmDashesToCommas: true`). -/
def defaultParseTextOptions : ParseTextOptions := ⟨true, true⟩

/-- The sanitizer `parseText` on character lists, in the fixed source
order: BOM strip, CR normalization, citation-artifact removal, NFKC,
invisible-character removal, control-character removal, optional
dash-to-comma conversion, space-like conversion, typography normalization,
optional space collapsing with trim. -/
def parseTextList (cs : List Char) (opts : ParseTextOptions) : List Char :=
  match cs with
  | [] => []
  | _ =>
    let r1 := stripBom cs
    let r2 := normalizeCR r1
    let r3 := removeCitations r2
    let r4 := nfkc r3
    let r5 := removeInvisible r4
    let r6 := removeAsciiCtrl r5
    let r7 := if opts.normalizeEmDashesToCommas then emDashReplace r6 else r6
    let r8 := spaceLikeToSpace r7
    let r9 := typoApply r8
    if opts.collapseSpaces then jsTrimList (collapseSpacesList r9) else r9

/-- `parseText` on strings. -/
def parseText (text : String) (opts : ParseTextOptions) : String :=
  String.mk (parseTextList text.data opts)

/-! ## Zod schema model and validation -/

mutual

/-- Structural equality of parsed JSON values (used by literal /
discriminator matching). -/
def jsonBeq : JsonValue → JsonValue → Bool
  | .null, .null => true
  | .bool a, .bool b => a = b
  | .num a, .num b => a = b
  | .str a, .str b => a = b
  | .arr a, .arr b => jsonBeqList a b
  | .obj a, .obj b => jsonBeqEntries a b
  | _, _ => false

/-- Pointwise equality of value lists. -/
def jsonBeqList : List JsonValue → List JsonValue → Bool
  | [], [] => true
  | x :: xs, y :: ys => jsonBeq x y && jsonBeqList xs ys
  | _, _ => false

/-- Pointwise equality of key-value lists. -/
def jsonBeqEntries : List (String × JsonValue) → List (String × JsonValue) → Bool
  | [], [] => true
  | (k1, v1) :: xs, (k2, v2) :: ys => k1 = k2 && jsonBeq v1 v2 && jsonBeqEntries xs ys
  | _, _ => false

end

/-- The closed tagged variant of Zod schema kinds that
`extractBySchemaType` dispatches on through `instanceof` checks, plus
`literal` (used inside discriminated unions) and a representative of every
other Zod kind (`unsupported`, e.g. `z.date()`). -/
inductive Schema where
  | string : Schema
  | number : Schema
  | boolean : Schema
  | null : Schema
  | array (elem : Schema) : Schema
  | object (fields : List (String × Schema)) : Schema
  | union (variants : List Schema) : Schema
  | discUnion (disc : String) (variants : List Schema) : Schema
  | literal (v : JsonValue) : Schema
  | optional (inner : Schema) : Schema
  | nullable (inner : Schema) : Schema
  | withDefault (inner : Schema) (d : JsonValue) : Schema
  | pipe (inner : Schema) : Schema
  | unsupported : Schema

/-- First value bound to a key. -/
def lookupKey (kvs : List (String × JsonValue)) (k : String) : Option JsonValue :=
  match kvs with
  | [] => none
  | (k0, v) :: rest => if k0 = k then some v else lookupKey rest k

/-- Whether a discriminated-union variant declares `disc` as a literal
equal to the candidate's discriminator value. -/
def discMatches (s : Schema) (disc : String) (dv : JsonValue) : Bool :=
  match s with
  | .object fields =>
    match fields.lookup disc with
    | some (.literal l) => jsonBeq l dv
    | _ => false
  | _ => false

mutual

/-- Zod v4 `schema.parse(value)` on parsed JSON values, as an
`Except`: `error` is a thrown `ZodError` (its message is abstracted).
JavaScript `undefined` cannot occur in a parsed JSON tree, so `optional`
and `withDefault` always delegate to the inner schema here; `withDefault`
substitutes its default only for an absent object field.  `pipe` models
`.transform()`/`.refine()` pipelines by their input side, the only side
`extractBySchemaType` uses; no claim exercises the output side. -/
def Schema.validate : Schema → JsonValue → Except String JsonValue
  | .string, .str s => .ok (.str s)
  | .string, _ => .error "invalid_type: expected string"
  | .number, .num (.rat q) => .ok (.num (.rat q))
  | .number, _ => .error "invalid_type: expected number"
  | .boolean, .bool b => .ok (.bool b)
  | .boolean, _ => .error "invalid_type: expected boolean"
  | .null, .null => .ok .null
  | .null, _ => .error "invalid_type: expected null"
  | .literal l, v => if jsonBeq l v then .ok v else .error "invalid_literal"
  | .array e, .arr xs => do
    let ys ← validateElems e xs
    pure (.arr ys)
  | .array _, _ => .error "invalid_type: expected array"
  | .object fields, .obj kvs => do
    let out ← validateFields fields kvs
    pure (.obj out)
  | .object _, _ => .error "invalid_type: expected object"
  | .union variants, v => validateFirst variants v
  | .discUnion disc variants, v =>
    match v with
    | .obj kvs =>
      match lookupKey kvs disc with
      | some dv => validateDisc variants disc dv (.obj kvs)
      | none => .error "missing discriminator"
    | _ => .error "invalid_type: expected object"
  | .optional inner, v => inner.validate v
  | .nullable _, .null => .ok .null
  | .nullable inner, v => inner.validate v
  | .withDefault inner _, v => inner.validate v
  | .pipe inner, v => inner.validate v
  | .unsupported, _ => .error "unsupported schema"

/-- Elements of an array against the element schema, in order. -/
def validateElems : Schema → List JsonValue → Except String (List JsonValue)
  | _, [] => .ok []
  | e, x :: xs => do
    let y ← Schema.validate e x
    let ys ← validateElems e xs
    pure (y :: ys)

/-- Declared fields of an object schema against a candidate's entries:
unknown keys are stripped, a present key is validated, an absent key is
admitted by an `optional` field (omitted from the output) or a
`withDefault` field (the default is substituted), and rejected
otherwise. -/
def validateFields : List (String × Schema) → List (String × JsonValue) →
    Except String (List (String × JsonValue))
  | [], _ => .ok []
  | (k, sch) :: fs, kvs =>
    match lookupKey kvs k with
    | some v => do
      let v' ← Schema.validate sch v
      let rest ← validateFields fs kvs
      pure ((k, v') :: rest)
    | none =>
      match sch with
      | .optional _ => validateFields fs kvs
      | .withDefault _ d => do
        let rest ← validateFields fs kvs
        pure ((k, d) :: rest)
      | _ => .error "required"

/-- Union validation: first succeeding variant wins. -/
def validateFirst : List Schema → JsonValue → Except String JsonValue
  | [], _ => .error "invalid_union: no variant matched"
  | s :: ss, v =>
    match Schema.validate s v with
    | .ok w => .ok w
    | .error _ => validateFirst ss v

/-- Discriminated-union validation: the variant whose literal discriminator
matches is validated. -/
def validateDisc : List Schema → String → JsonValue → JsonValue →
    Except String JsonValue
  | [], _, _, _ => .error "invalid discriminator value"
  | s :: ss, disc, dv, v =>
    if discMatches s disc dv then Schema.validate s v
    else validateDisc ss disc dv v

end

/-! ## Candidate location and extraction (parse-object module) -/

/-- The engine-internal error hierarchy: `ParseObjectError` (message, cause,
original text), the `ZodError` a failing `schema.parse` throws, and the
`SyntaxError` a failing `JSON.parse`/`jsonrepair` throws (its message is
engine-specific and abstracted away). -/
inductive ThrownError where
  | zodError (message : String) : ThrownError
  | jsSyntaxError : ThrownError
  | parseObjectError (message : String) (cause : Option ThrownError)
      (text : Option String) : ThrownError
deriving Repr

/-- `convertToPrimitive` (parse-text.ts lines 129-135): `Boolean(value)`,
`null`, `Number(value)`, `String(value)` by schema kind, the value itself
otherwise. -/
def convertToPrimitive (v : JsonValue) (schema : Schema) : JsonValue :=
  match schema with
  | .boolean => .bool (jsTruthy v)
  | .null => .null
  | .number => .num (jsToNumber v)
  | .string => .str (jsValueToString v)
  | _ => v

/-- Model of the external `jsonrepair` dependency: the identity on already
strictly-valid JSON — the only regime any theorem below exercises — and
failure otherwise (the real library attempts tolerant repair there; the
properties under verification never depend on a repair succeeding on
malformed input). -/
def jsonrepair (cs : List Char) : Option (List Char) :=
  if (jsonParseList cs).isSome then some cs else none

/-- Index of the first occurrence of a character (`String.prototype.indexOf`). -/
def indexOfChar (cs : List Char) (c : Char) : Option Nat :=
  match cs with
  | [] => none
  | x :: rest =>
    if x = c then some 0
    else
      match indexOfChar rest c with
      | some i => some (i + 1)
      | none => none

/-- Index of the last occurrence of a character (`String.prototype.lastIndexOf`). -/
def lastIndexOfChar (cs : List Char) (c : Char) : Option Nat :=
  match cs with
  | [] => none
  | x :: rest =>
    match lastIndexOfChar rest c with
    | some i => some (i + 1)
    | none => if x = c then some 0 else none

/-- `text.slice(start, stop)` for `start ≤ stop` positions (`stop`
exclusive); an empty slice results when `stop ≤ start`. -/
def sliceList (cs : List Char) (start stop : Nat) : List Char :=
  (cs.drop start).take (stop - start)

/-- `extractArray` (parse-text.ts lines 137-151): slice from the first `[`
to the last `]`, repair, strict-parse. -/
def extractArray (cs : List Char) (originalText : String) :
    Except ThrownError JsonValue :=
  match indexOfChar cs '[', lastIndexOfChar cs ']' with
  | some start, some stop =>
    let raw := sliceList cs start (stop + 1)
    match jsonrepair raw with
    | some repaired =>
      match jsonParseList repaired with
      | some v => .ok v
      | none => .error (.parseObjectError "Failed to parse array JSON"
          (some .jsSyntaxError) (some originalText))
    | none => .error (.parseObjectError "Failed to parse array JSON"
        (some .jsSyntaxError) (some originalText))
  | _, _ => .error (.parseObjectError "No array found in response" none (some originalText))

/-- `extractObject` (parse-text.ts lines 235-249): slice from the first `{`
to the last `}`, repair, strict-parse. -/
def extractObject (cs : List Char) (originalText : String) :
    Except ThrownError JsonValue :=
  match indexOfChar cs '\x7b', lastIndexOfChar cs '\x7d' with
  | some start, some stop =>
    let raw := sliceList cs start (stop + 1)
    match jsonrepair raw with
    | some repaired =>
      match jsonParseList repaired with
      | some v => .ok v
      | none => .error (.parseObjectError "Failed to parse object JSON"
          (some .jsSyntaxError) (some originalText))
    | none => .error (.parseObjectError "Failed to parse object JSON"
        (some .jsSyntaxError) (some originalText))
  | _, _ => .error (.parseObjectError "No object found in response" none (some originalText))

/-- `extractPrimitive` (parse-text.ts lines 251-258): strict-parse the
trimmed text if possible, otherwise convert the raw trimmed text itself.
`convertToPrimitive` never throws, so this function is total. -/
def extractPrimitive (cs : List Char) (schema : Schema) : JsonValue :=
  let trimmed := jsTrimList cs
  match jsonParseList trimmed with
  | some v => convertToPrimitive v schema
  | none => convertToPrimitive (.str (String.mk trimmed)) schema

/-- The scan state of `findJsonStructures`: JavaScript's `depth` counter is
a plain number and may go negative on unbalanced closers, which the source
faithfully allows, so it is an `Int` here; `start = -1` is `none`. -/
def findJsonStructuresAux (cs : List Char) (i : Nat) (depth : Int)
    (start : Option Nat) (full : List Char) : List (List Char) :=
  match cs with
  | [] => []
  | c :: rest =>
    if c = '\x7b' ∨ c = '[' then
      findJsonStructuresAux rest (i + 1) (depth + 1)
        (if depth = 0 then some i else start) full
    else if c = '\x7d' ∨ c = ']' then
      let d := depth - 1
      match start with
      | some s =>
        if d = 0 then
          let candidate := sliceList full s (i + 1)
          if (jsonParseList candidate).isSome then
            candidate :: findJsonStructuresAux rest (i + 1) d (some s) full
          else findJsonStructuresAux rest (i + 1) d (some s) full
        else findJsonStructuresAux rest (i + 1) d (some s) full
      | none => findJsonStructuresAux rest (i + 1) d none full
    else findJsonStructuresAux rest (i + 1) depth start full

/-- `findJsonStructures` (parse-text.ts lines 260-285): bracket-depth scan
collecting every strictly-parseable span whose depth returns to zero. -/
def findJsonStructures (cs : List Char) : List (List Char) :=
  findJsonStructuresAux cs 0 0 none cs

/-- `findLongestString` (parse-text.ts lines 287-291): `reduce` keeping the
strictly longer candidate, so the first of the longest wins.  JavaScript's
`reduce` throws on an empty array; both call sites guard non-emptiness, so
the empty case is unreachable and modelled as the empty string. -/
def longerOf (longest current : List Char) : List Char :=
  if current.length > longest.length then current else longest

/-- `findLongestString`, the `reduce` over `longerOf`. -/
def findLongestString : List (List Char) → List Char
  | [] => []
  | h :: t => t.foldl longerOf h

/-- Greedy `\r?\n` at the head of the input: `(consumed, rest)`. -/
def cbNewline : List Char → Option (List Char × List Char)
  | '\r' :: '\n' :: rest => some (['\r', '\n'], rest)
  | '\n' :: rest => some (['\n'], rest)
  | _ => none

/-- The lazy interior `([^`]*?)` of `MARKDOWN_CODE_BLOCK_RE` followed by its
closing `\r?\n```: at each point try the closing first (lazy), otherwise
extend the interior by one non-backtick character.  Returns
`(interior, closing characters, remainder)`. -/
def cbCloseScan (accRev : List Char) (cs : List Char) :
    Option (List Char × List Char × List Char) :=
  match cs with
  | '\r' :: '\n' :: '`' :: '`' :: '`' :: rest =>
    some (accRev.reverse, ['\r', '\n', '`', '`', '`'], rest)
  | '\n' :: '`' :: '`' :: '`' :: rest =>
    some (accRev.reverse, ['\n', '`', '`', '`'], rest)
  | c :: rest => if c = '`' then none else cbCloseScan (c :: accRev) rest
  | [] => none

/-- `MARKDOWN_CODE_BLOCK_RE` = ```` ```(?:json)?\r?\n([^`]*?)\r?\n``` ````
tried at the head of the input: `(full match, interior group, remainder)`.
When the optional `json` tag is present but the rest fails, the regex
engine's fallback without the tag would require `\r?\n` at the letter `j`
and always fails, so no backtracking case is needed. -/
def cbTryAt (cs : List Char) : Option (List Char × List Char × List Char) :=
  match cs with
  | '`' :: '`' :: '`' :: afterTicks =>
    let (tagChars, afterTag) :=
      match afterTicks with
      | 'j' :: 's' :: 'o' :: 'n' :: r => (['j', 's', 'o', 'n'], r)
      | _ => ([], afterTicks)
    match cbNewline afterTag with
    | some (nl, afterNl) =>
      match cbCloseScan [] afterNl with
      | some (group, closing, rem) =>
        some ('`' :: '`' :: '`' :: (tagChars ++ nl ++ group ++ closing), group, rem)
      | none => none
    | none => none
  | _ => none

/-- `text.match(MARKDOWN_CODE_BLOCK_RE)` with the global flag: all
non-overlapping matches, scanning left to right.  One unit of fuel per scan
position, so the input length is always enough. -/
def cbMatchesFuel : Nat → List Char → List (List Char)
  | 0, _ => []
  | fuel + 1, cs =>
    match cs with
    | [] => []
    | c :: rest =>
      (cbTryAt (c :: rest)).elim (cbMatchesFuel fuel rest)
        (fun m => m.1 :: cbMatchesFuel fuel m.2.2)

/-- All full matches of `MARKDOWN_CODE_BLOCK_RE`. -/
def codeBlockMatches (cs : List Char) : List (List Char) :=
  cbMatchesFuel cs.length cs

/-- `block.replace(MARKDOWN_CODE_BLOCK_RE, "$1")` without the global flag:
the leftmost match is replaced by its interior group. -/
def cbReplaceFirstFuel : Nat → List Char → List Char
  | 0, cs => cs
  | fuel + 1, cs =>
    match cs with
    | [] => []
    | c :: rest =>
      (cbTryAt (c :: rest)).elim (c :: cbReplaceFirstFuel fuel rest)
        (fun m => m.2.1 ++ m.2.2)

/-- `extractJsonFromCodeBlock` (parse-text.ts lines 205-213): strip the
fence, trim, keep the interior only if it strictly parses. -/
def extractJsonFromCodeBlock (block : List Char) : Option (List Char) :=
  let content := jsTrimList (cbReplaceFirstFuel block.length block)
  if (jsonParseList content).isSome then some content else none

/-- `/\s+/g → " "` then trim: the whole-text fallback candidate. -/
def collapseWsRuns : List Char → List Char
  | [] => []
  | c :: rest =>
    if jsWhitespaceChar c then
      match rest with
      | c2 :: _ =>
        if jsWhitespaceChar c2 then collapseWsRuns rest
        else ' ' :: collapseWsRuns rest
      | [] => [' ']
    else c :: collapseWsRuns rest

/-- The valid fenced interiors of a text, in match order. -/
def validFencedBlocks (cs : List Char) : List (List Char) :=
  (codeBlockMatches cs).filterMap extractJsonFromCodeBlock

/-- `extractJsonString` (parse-text.ts lines 215-233): longest valid fenced
interior, else longest valid bracket-matched span, else the
whitespace-collapsed trimmed whole text. -/
def extractJsonString (cs : List Char) : List Char :=
  let validBlocks := validFencedBlocks cs
  if validBlocks ≠ [] then findLongestString validBlocks
  else
    let structures := findJsonStructures cs
    if structures ≠ [] then findLongestString structures
    else jsTrimList (collapseWsRuns cs)

/-- `extractBySchemaType` (parse-text.ts lines 153-203), in source arm
order: array, object, the four primitives, union / discriminated union by
bracket presence (object before array), the transparent wrappers by
unwrapping, and `Unsupported schema type` for every other kind (including a
bare `literal`, which the source's dispatch list does not contain). -/
def extractBySchemaType (cs : List Char) (schema : Schema) (originalText : String) :
    Except ThrownError JsonValue :=
  match schema with
  | .array _ => extractArray cs originalText
  | .object _ => extractObject cs originalText
  | .boolean => .ok (extractPrimitive cs .boolean)
  | .null => .ok (extractPrimitive cs .null)
  | .number => .ok (extractPrimitive cs .number)
  | .string => .ok (extractPrimitive cs .string)
  | .union _ =>
    if cs.contains '\x7b' then extractObject cs originalText
    else if cs.contains '[' then extractArray cs originalText
    else .error (.parseObjectError "No object or array found for union type"
        none (some originalText))
  | .discUnion _ _ =>
    if cs.contains '\x7b' then extractObject cs originalText
    else if cs.contains '[' then extractArray cs originalText
    else .error (.parseObjectError "No object or array found for union type"
        none (some originalText))
  | .optional inner => extractBySchemaType cs inner originalText
  | .nullable inner => extractBySchemaType cs inner originalText
  | .withDefault inner _ => extractBySchemaType cs inner originalText
  | .pipe inner => extractBySchemaType cs inner originalText
  | .literal _ => .error (.parseObjectError "Unsupported schema type" none (some originalText))
  | .unsupported => .error (.parseObjectError "Unsupported schema type" none (some originalText))

/-! ## Leaf unescaper and `parseObject` -/

/-- One global two-character replacement (`text.replace(/XY/g, out)`),
scanning left to right and resuming after each replacement. -/
def replacePair (a b out : Char) : List Char → List Char
  | x :: y :: rest =>
    if x = a ∧ y = b then out :: replacePair a b out rest
    else x :: replacePair a b out (y :: rest)
  | [x] => [x]
  | [] => []

/-- The `\uXXXX` replacement (`/\\u([0-9a-fA-F]{4})/g` with
`String.fromCharCode(parseInt(code, 16))`). -/
def replaceUnicodeEsc : List Char → List Char
  | '\\' :: 'u' :: h1 :: h2 :: h3 :: h4 :: rest =>
    match hexVal h1, hexVal h2, hexVal h3, hexVal h4 with
    | some a, some b, some c, some d =>
      charOfCode (((a * 16 + b) * 16 + c) * 16 + d) :: replaceUnicodeEsc rest
    | _, _, _, _ => '\\' :: replaceUnicodeEsc ('u' :: h1 :: h2 :: h3 :: h4 :: rest)
  | c :: rest => c :: replaceUnicodeEsc rest
  | [] => []

/-- `unescapeString` (parse-text.ts lines 308-318): the five sequential
global replaces, then the numeric Unicode escapes. -/
def unescapeStringList (cs : List Char) : List Char :=
  replaceUnicodeEsc
    (replacePair '\\' '\\' '\\'
      (replacePair '\\' 't' '\t'
        (replacePair '\\' 'r' '\r'
          (replacePair '\\' 'n' '\n'
            (replacePair '\\' '"' '"' cs)))))

/-- `unescapeString` on strings. -/
def unescapeString (s : String) : String :=
  String.mk (unescapeStringList s.data)

mutual

/-- `unescapeJsonValues` (parse-text.ts lines 293-306): unescape every
string leaf, recurse through arrays and objects, leave keys and
non-string leaves untouched. -/
def unescapeJsonValues : JsonValue → JsonValue
  | .str s => .str (unescapeString s)
  | .arr xs => .arr (unescapeValuesList xs)
  | .obj kvs => .obj (unescapeEntries kvs)
  | .null => .null
  | .bool b => .bool b
  | .num n => .num n

/-- Array elements. -/
def unescapeValuesList : List JsonValue → List JsonValue
  | [] => []
  | x :: xs => unescapeJsonValues x :: unescapeValuesList xs

/-- Object entries: the key is passed through verbatim. -/
def unescapeEntries : List (String × JsonValue) → List (String × JsonValue)
  | [] => []
  | (k, v) :: rest => (k, unescapeJsonValues v) :: unescapeEntries rest

end

/-- `parseObject` (parse-text.ts lines 110-125): locate a candidate,
extract by schema kind, unescape, validate.  A `ZodError` from
`schema.parse` is caught and re-thrown as a `ParseObjectError` with message
`"Failed to validate response against schema"`; a `ParseObjectError` from
the extraction helpers propagates unchanged. -/
def parseObject (text : String) (schema : Schema) : Except ThrownError JsonValue :=
  let jsonString := extractJsonString text.data
  match extractBySchemaType jsonString schema text with
  | .error e => .error e
  | .ok extracted =>
    let unescaped := unescapeJsonValues extracted
    match schema.validate unescaped with
    | .ok v => .ok v
    | .error m => .error (.parseObjectError "Failed to validate response against schema"
        (some (.zodError m)) (some text))

/-! ## Result model and error classification (src/result/result.ts) -/

/-- The closed `GenerationErrorCode` taxonomy. -/
inductive GenerationErrorCode where
  | AI_GENERATION_FAILED : GenerationErrorCode
  | EMPTY_RESULT : GenerationErrorCode
  | PARSING_FAILED : GenerationErrorCode
  | RATE_LIMITED : GenerationErrorCode
  | TIMEOUT : GenerationErrorCode
  | VALIDATION_FAILED : GenerationErrorCode
deriving DecidableEq, Repr

/-- `GenerationError`: code, message, optional cause. -/
structure GenerationError where
  code : GenerationErrorCode
  message : String
  cause : Option ThrownError
deriving Repr

/-- `GenerationResult`: the discriminated success/failure union. -/
inductive GenerationResult where
  | success (data : JsonValue) : GenerationResult
  | failure (error : GenerationError) : GenerationResult
deriving Repr

/-- `generationSuccess`. -/
def generationSuccess (data : JsonValue) : GenerationResult := .success data

/-- `generationFailure`. -/
def generationFailure (code : GenerationErrorCode) (message : String)
    (cause : Option ThrownError) : GenerationResult :=
  .failure ⟨code, message, cause⟩

/-- The code of a failure result, if any. -/
def GenerationResult.errorCode : GenerationResult → Option GenerationErrorCode
  | .success _ => none
  | .failure e => some e.code

/-- The message of a failure result, if any. -/
def GenerationResult.errorMessage : GenerationResult → Option String
  | .success _ => none
  | .failure e => some e.message

/-- `String.prototype.toLowerCase` on the ASCII range (every pattern the
classifier matches is ASCII; non-ASCII simple case mappings are not
modelled). -/
def jsToLowerChar (c : Char) : Char :=
  if 'A' ≤ c ∧ c ≤ 'Z' then Char.ofNat (c.toNat + 32) else c

/-- `String.prototype.toLowerCase`. -/
def jsToLower (s : String) : String := String.mk (s.data.map jsToLowerChar)

/-- `classifyError` (result.ts lines 50-73) on a thrown value: `some m` is
an `Error` whose `.message` is `m`, `none` any non-`Error` throw.
`toLowerCase` is `jsToLower` above. -/
def classifyError (error : Option String) : GenerationErrorCode :=
  match error with
  | some message =>
    let m := jsToLower message
    if strIncludes m "timeout" || strIncludes m "timed out" then .TIMEOUT
    else if strIncludes m "rate limit" || strIncludes m "429" then .RATE_LIMITED
    else if strIncludes m "parse" || strIncludes m "json" ||
        strIncludes m "unexpected token" then .PARSING_FAILED
    else if strIncludes m "valid" || strIncludes m "schema" ||
        strIncludes m "zod" then .VALIDATION_FAILED
    else .AI_GENERATION_FAILED
  | none => .AI_GENERATION_FAILED

/-! ## `generateStructured` (src/generation/generate-structured.ts) -/

/-- The response-handling part of `generateStructured` (lines 77-89): what
the operation returns once the model call has produced `text`.  The model
call itself is external asynchronous I/O outside this core; its own
exceptions go through `classifyError` in the surrounding catch and are not
part of this path.  Empty or blank text yields `EMPTY_RESULT`; a
`ParseObjectError` from `parseObject` yields `PARSING_FAILED` with the
error's message; any other exception would yield `VALIDATION_FAILED`. -/
def generateStructuredFromResponse (text : String) (schema : Schema) :
    GenerationResult :=
  if text = "" ∨ jsTrim text = "" then
    generationFailure .EMPTY_RESULT "AI returned empty response" none
  else
    match parseObject text schema with
    | .ok data => generationSuccess data
    | .error e =>
      match e with
      | .parseObjectError msg _ _ => generationFailure .PARSING_FAILED msg (some e)
      | _ => generationFailure .VALIDATION_FAILED "Schema validation failed" (some e)

/-! ## Spec-side definitions and helper predicates -/

/-- First arm of a substring-pattern table whose pattern matches, else the
generic failure code. -/
def classifyByTable : List (List String × GenerationErrorCode) → String → GenerationErrorCode
  | [], _ => .AI_GENERATION_FAILED
  | (pats, code) :: rest, m =>
    if pats.any (fun p => strIncludes m p) then code else classifyByTable rest m

/-- The classifier arms exactly as the specification words them
(§4.6): `timeout`/`timed out`, `rate limit`/`429`,
`parse`/`json`/`unexpected token`, `valid`/`schema` — and no other
pattern. -/
def specClassifierArms : List (List String × GenerationErrorCode) :=
  [(["timeout", "timed out"], .TIMEOUT),
   (["rate limit", "429"], .RATE_LIMITED),
   (["parse", "json", "unexpected token"], .PARSING_FAILED),
   (["valid", "schema"], .VALIDATION_FAILED)]

/-- The error classifier as the specification describes it (no `zod`
arm). -/
def classifyErrorSpec (error : Option String) : GenerationErrorCode :=
  match error with
  | some message => classifyByTable specClassifierArms (jsToLower message)
  | none => .AI_GENERATION_FAILED

/-- The classifier arms with the `zod` pattern the source actually also
matches in its validation arm. -/
def amendedClassifierArms : List (List String × GenerationErrorCode) :=
  [(["timeout", "timed out"], .TIMEOUT),
   (["rate limit", "429"], .RATE_LIMITED),
   (["parse", "json", "unexpected token"], .PARSING_FAILED),
   (["valid", "schema", "zod"], .VALIDATION_FAILED)]

/-- The error classifier as amended: identical to the spec's description
except that `zod` is a third pattern of the validation arm. -/
def classifyErrorAmended (error : Option String) : GenerationErrorCode :=
  match error with
  | some message => classifyByTable amendedClassifierArms (jsToLower message)
  | none => .AI_GENERATION_FAILED

/-- No two adjacent ASCII spaces. -/
def noTwoSpaces : List Char → Bool
  | c1 :: c2 :: rest => !(c1 = ' ' ∧ c2 = ' ') && noTwoSpaces (c2 :: rest)
  | _ => true

/-- The object schema used in concrete scenarios: `{ score: number }`. -/
def scoreSchema : Schema := .object [("score", .number)]

/-- A response whose candidate parses but whose value fails `scoreSchema`. -/
def invalidScoreText : String := "\x7b\"score\": true\x7d"

/-- The object schema `{ name: string }`. -/
def nameSchema : Schema := .object [("name", .string)]

/-- `nameSchema` wrapped in optional ∘ nullable ∘ default, with default
`{ name: "default" }`. -/
def wrappedNameSchema : Schema :=
  .optional (.nullable (.withDefault nameSchema (.obj [("name", .str "default")])))

/-- Two valid objects in one prose text, the second strictly longer. -/
def twoObjectsText : String :=
  "First: \x7b\"title\": \"Small\"\x7d, Second: \x7b\"title\": \"Much Bigger Object\", \"x\": 1\x7d"

/-- A text with both a valid fenced JSON block and valid unfenced prose
JSON. -/
def fencedAndProseText : String :=
  "Intro \x7b\"a\": 1\x7d then ```json\n\x7b\"bb\": 22\x7d\n``` done"

/-- A sanitizer input on which citation removal creates a new
citation-artifact match. -/
def nonIdemInput : String := "(oaicite:1(oaicite:2)\x7bindex=3\x7d)\x7bindex=4\x7d"

/-! ## Theorems -/

/-- Helper: `unescapeEntries` is the entry-wise map that keeps keys. -/
theorem unescapeEntries_eq_map (kvs : List (String × JsonValue)) :
    unescapeEntries kvs = kvs.map (fun kv => (kv.1, unescapeJsonValues kv.2)) := by
  induction kvs with
  | nil => rfl
  | cons kv rest ih => cases kv; simp [unescapeEntries, ih]

/-- Helper: `unescapeValuesList` is the element-wise map. -/
theorem unescapeValuesList_eq_map (xs : List JsonValue) :
    unescapeValuesList xs = xs.map unescapeJsonValues := by
  induction xs with
  | nil => rfl
  | cons x rest ih => simp [unescapeValuesList, ih]

/-- C9: the leaf unescaper rewrites only string values: at every map node
the output keys are the input keys verbatim (escape sequences in keys
included) while the values are recursively unescaped; at every array node
elements are recursively unescaped; every string leaf is unescaped; and a
concrete map whose key contains `\n` and `A` escapes keeps that key
character for character while its string value is unescaped. -/
theorem unescape_rewrites_only_string_values :
    (∀ kvs, unescapeJsonValues (.obj kvs)
      = .obj (kvs.map (fun kv => (kv.1, unescapeJsonValues kv.2)))) ∧
    (∀ xs, unescapeJsonValues (.arr xs) = .arr (xs.map unescapeJsonValues)) ∧
    (∀ s, unescapeJsonValues (.str s) = .str (unescapeString s)) ∧
    unescapeJsonValues (.obj [("a\\nb\\u0041", .str "c\\nd\\u0041")])
      = .obj [("a\\nb\\u0041", .str "c\ndA")] := by
  refine ⟨?_, ?_, fun s => rfl, rfl⟩
  · intro kvs
    simp [unescapeJsonValues, unescapeEntries_eq_map]
  · intro xs
    simp [unescapeJsonValues, unescapeValuesList_eq_map]

/-- C10: extraction against the null-primitive schema has no failure path:
for every input text it succeeds and returns `null`, because
`convertToPrimitive` maps any value — strict-parse result or raw trimmed
fallback alike — to `null`, which the null schema then accepts. -/
theorem null_extraction_always_null (text : String) :
    parseObject text Schema.null = .ok .null := by
  have h : extractPrimitive (extractJsonString text.data) Schema.null = .null := by
    simp only [extractPrimitive]
    cases jsonParseList (jsTrimList (extractJsonString text.data)) <;>
      simp [convertToPrimitive]
  simp only [parseObject, extractBySchemaType, h, unescapeJsonValues, Schema.validate]

/-- C4 counterexample: the message `"zod mismatch"` contains none of the
nine substrings the claim lists, so the claim says the generic code; the
source classifier has an additional `"zod"` pattern and returns
`VALIDATION_FAILED` instead (pinned by the repository's own test
`classifyError(new Error('Zod error')) → VALIDATION_FAILED`). -/
theorem classifyError_zod_counterexample :
    (["timeout", "timed out", "rate limit", "429", "parse", "json",
      "unexpected token", "valid", "schema"].all
        (fun p => !strIncludes "zod mismatch" p)) = true ∧
    classifyError (some "zod mismatch") = .VALIDATION_FAILED ∧
    classifyErrorSpec (some "zod mismatch") = .AI_GENERATION_FAILED := by
  refine ⟨by decide, rfl, rfl⟩

/-- C4 amended: `classifyError` maps a thrown `Error` by lower-cased
substring matching with exactly the spec's arms and precedence, except that
the `VALIDATION_FAILED` arm also matches the substring `"zod"`; a non-Error
throw and an unmatched message give the generic failure code. -/
theorem classifyError_matches_amended_spec (e : Option String) :
    classifyError e = classifyErrorAmended e := by
  cases e with
  | none => rfl
  | some msg =>
    simp only [classifyError, classifyErrorAmended, classifyByTable,
      amendedClassifierArms, List.any_cons, List.any_nil, Bool.or_false,
      Bool.or_assoc]

/-- C7: for union and discriminated-union schemas, extraction dispatches on
the candidate text only: the object strategy exactly when an `{` is
present, else the array strategy exactly when a `[` is present, else the
`"No object or array found for union type"` parse error; variant selection
is left to `schema.validate`, which runs only after a successful
extraction, so a candidate with neither bracket makes the whole
`parseObject` fail with that parse error. -/
theorem union_dispatch_object_before_array (cs : List Char) (orig : String)
    (variants : List Schema) (d : String) :
    (extractBySchemaType cs (.union variants) orig =
      (if cs.contains '\x7b' then extractObject cs orig
       else if cs.contains '[' then extractArray cs orig
       else .error (.parseObjectError "No object or array found for union type"
          none (some orig)))) ∧
    (extractBySchemaType cs (.discUnion d variants) orig =
      (if cs.contains '\x7b' then extractObject cs orig
       else if cs.contains '[' then extractArray cs orig
       else .error (.parseObjectError "No object or array found for union type"
          none (some orig)))) ∧
    (∀ text : String, '\x7b' ∉ extractJsonString text.data →
      '[' ∉ extractJsonString text.data →
      parseObject text (.union variants) =
        .error (.parseObjectError "No object or array found for union type"
          none (some text))) := by
  refine ⟨rfl, rfl, ?_⟩
  intro text h1 h2
  simp [parseObject, extractBySchemaType, h1, h2]

/-- C7 witness: the dispatch theorem applied to the candidate of
`"just plain text"`, which contains neither bracket. -/
theorem union_dispatch_witness :
    parseObject "just plain text" (.union [nameSchema, scoreSchema]) =
      .error (.parseObjectError "No object or array found for union type"
        none (some "just plain text")) :=
  (union_dispatch_object_before_array [] "" [nameSchema, scoreSchema] "").2.2
    "just plain text" (by decide) (by decide)

/-- C2 counterexample: the trimmed text `"hello"` does not strictly parse
as JSON, yet extraction with the boolean schema does not fail — it coerces
the non-literal word to `true` by JavaScript truthiness, contradicting
strict-JSON literal semantics. -/
theorem primitive_boolean_truthiness_counterexample :
    jsonParseList (jsTrimList "hello".data) = none ∧
    parseObject "hello" Schema.boolean = .ok (.bool true) := by
  refine ⟨rfl, ?_⟩
  have hx : extractBySchemaType (extractJsonString "hello".data) Schema.boolean "hello"
      = .ok (.bool true) := rfl
  simp [parseObject, hx, unescapeJsonValues, Schema.validate]

/-- C2 amended: for a candidate whose trimmed form does not strictly parse
as JSON, the raw trimmed text is coerced with JavaScript conversion
semantics, not strict-JSON literal semantics: boolean coercion is
truthiness (`true` exactly when the trimmed text is non-empty), numeric
coercion is the ECMAScript string-to-number conversion, string coercion is
passthrough, and the null schema gets `null`. -/
theorem primitive_coercion_is_js_conversion (cs : List Char)
    (h : jsonParseList (jsTrimList cs) = none) :
    (extractPrimitive cs .boolean = .bool true ↔ jsTrimList cs ≠ []) ∧
    extractPrimitive cs .number = .num (jsStringToNumber (jsTrimList cs)) ∧
    extractPrimitive cs .string = .str (String.mk (jsTrimList cs)) ∧
    extractPrimitive cs Schema.null = .null := by
  simp only [extractPrimitive, h]
  refine ⟨?_, ?_, ?_, rfl⟩
  · have hsm : (String.mk (jsTrimList cs) = "") ↔ jsTrimList cs = [] :=
      ⟨fun hh => congrArg String.data hh, fun hh => by rw [hh]⟩
    simp only [convertToPrimitive, jsTruthy, JsonValue.bool.injEq,
      decide_eq_true_eq, ne_eq]
    exact not_congr hsm
  · simp [convertToPrimitive, jsToNumber]
  · simp [convertToPrimitive, jsValueToString]

/-- C2 witness: the coercion theorem applied to the non-literal word
`"hello"`. -/
theorem primitive_coercion_witness :
    jsonParseList (jsTrimList "hello".data) = none ∧
    (extractPrimitive "hello".data .boolean = .bool true ↔
      jsTrimList "hello".data ≠ []) :=
  ⟨rfl, (primitive_coercion_is_js_conversion "hello".data rfl).1⟩

/-- Helper: the fold of `longerOf` returns its accumulator or a list
element. -/
theorem foldl_longerOf_mem (t : List (List Char)) (acc : List Char) :
    t.foldl longerOf acc = acc ∨ t.foldl longerOf acc ∈ t := by
  induction t generalizing acc with
  | nil => left; rfl
  | cons hd tl ih =>
    simp only [List.foldl_cons]
    rcases ih (longerOf acc hd) with h | h
    · rw [h]
      unfold longerOf
      split
      · right; exact List.mem_cons_self hd tl
      · left; rfl
    · right; exact List.mem_cons_of_mem hd h

/-- Helper: the fold of `longerOf` never shrinks below the accumulator. -/
theorem foldl_longerOf_le (t : List (List Char)) (acc : List Char) :
    acc.length ≤ (t.foldl longerOf acc).length := by
  induction t generalizing acc with
  | nil => simp
  | cons hd tl ih =>
    simp only [List.foldl_cons]
    refine le_trans ?_ (ih (longerOf acc hd))
    unfold longerOf; split <;> omega

/-- Helper: the fold of `longerOf` dominates every list element. -/
theorem foldl_longerOf_all (t : List (List Char)) (acc : List Char) :
    ∀ s ∈ t, s.length ≤ (t.foldl longerOf acc).length := by
  induction t generalizing acc with
  | nil => intro s hs; simp at hs
  | cons hd tl ih =>
    intro s hs
    simp only [List.foldl_cons]
    rcases List.mem_cons.mp hs with h2 | h2
    · subst h2
      refine le_trans ?_ (foldl_longerOf_le tl (longerOf acc s))
      unfold longerOf; split <;> omega
    · exact ih (longerOf acc hd) s h2

/-- Helper: on a non-empty list, `findLongestString` returns an element. -/
theorem findLongestString_mem (l : List (List Char)) (h : l ≠ []) :
    findLongestString l ∈ l := by
  match l with
  | [] => exact absurd rfl h
  | hd :: tl =>
    simp only [findLongestString]
    rcases foldl_longerOf_mem tl hd with h1 | h1
    · rw [h1]; exact List.mem_cons_self hd tl
    · exact List.mem_cons_of_mem hd h1

/-- Helper: `findLongestString` dominates every element's length. -/
theorem findLongestString_max (l : List (List Char)) :
    ∀ s ∈ l, s.length ≤ (findLongestString l).length := by
  match l with
  | [] => intro s hs; simp at hs
  | hd :: tl =>
    intro s hs
    simp only [findLongestString]
    rcases List.mem_cons.mp hs with h2 | h2
    · subst h2
      exact foldl_longerOf_le tl s
    · exact foldl_longerOf_all tl hd s h2

/-- C5: when no fenced block is valid and the bracket-depth scan finds its
strictly-parseable spans, candidate location returns one of those spans and
no found span is longer: the longest bracket-matched candidate wins. -/
theorem bracket_tier_longest_span_wins (text : String)
    (hfence : validFencedBlocks text.data = [])
    (htwo : 2 ≤ (findJsonStructures text.data).length) :
    extractJsonString text.data ∈ findJsonStructures text.data ∧
    ∀ s ∈ findJsonStructures text.data,
      s.length ≤ (extractJsonString text.data).length := by
  have hne : findJsonStructures text.data ≠ [] := by
    intro h0; rw [h0] at htwo; simp at htwo
  have hx : extractJsonString text.data
      = findLongestString (findJsonStructures text.data) := by
    simp [extractJsonString, hfence, hne]
  rw [hx]
  exact ⟨findLongestString_mem _ hne, findLongestString_max _⟩

/-- C5 witness: the longest-span theorem applied to a text holding a small
and a larger valid object; extraction proceeds from the larger one. -/
theorem bracket_tier_longest_span_witness :
    extractJsonString twoObjectsText.data ∈ findJsonStructures twoObjectsText.data ∧
    extractJsonString twoObjectsText.data =
      "\x7b\"title\": \"Much Bigger Object\", \"x\": 1\x7d".data ∧
    "\x7b\"title\": \"Small\"\x7d".data ∈ findJsonStructures twoObjectsText.data :=
  ⟨(bracket_tier_longest_span_wins twoObjectsText rfl (by decide)).1, rfl, by decide⟩

/-- C6: when at least one fenced interior strictly parses, candidate
location returns the longest valid fenced interior, regardless of any
strictly-parseable bracket spans elsewhere in the text: the fenced tier
strictly precedes the bracket-matched tier. -/
theorem fenced_tier_precedes_bracket_tier (text : String)
    (h : validFencedBlocks text.data ≠ []) :
    extractJsonString text.data = findLongestString (validFencedBlocks text.data) ∧
    extractJsonString text.data ∈ validFencedBlocks text.data ∧
    ∀ s ∈ validFencedBlocks text.data,
      s.length ≤ (extractJsonString text.data).length := by
  have hx : extractJsonString text.data
      = findLongestString (validFencedBlocks text.data) := by
    simp [extractJsonString, h]
  rw [hx]
  exact ⟨rfl, findLongestString_mem _ h, findLongestString_max _⟩

/-- C6 witness: the fenced-preference theorem applied to a text holding
both a valid fenced block and valid unfenced prose JSON; the fenced
interior is returned even though a bracket-matched span exists. -/
theorem fenced_tier_precedes_bracket_witness :
    extractJsonString fencedAndProseText.data ∈ validFencedBlocks fencedAndProseText.data ∧
    extractJsonString fencedAndProseText.data = "\x7b\"bb\": 22\x7d".data ∧
    findJsonStructures fencedAndProseText.data ≠ [] :=
  ⟨(fenced_tier_precedes_bracket_tier fencedAndProseText (by decide)).2.1, rfl, by decide⟩

/-- Helper: `extractArray` only fails with a `ParseObjectError`. -/
theorem extractArray_error_shape (cs : List Char) (orig : String) (e : ThrownError)
    (he : extractArray cs orig = .error e) : ∃ m c t, e = .parseObjectError m c t := by
  simp only [extractArray] at he
  repeat' split at he
  all_goals try cases he
  all_goals exact ⟨_, _, _, rfl⟩

/-- Helper: `extractObject` only fails with a `ParseObjectError`. -/
theorem extractObject_error_shape (cs : List Char) (orig : String) (e : ThrownError)
    (he : extractObject cs orig = .error e) : ∃ m c t, e = .parseObjectError m c t := by
  simp only [extractObject] at he
  repeat' split at he
  all_goals try cases he
  all_goals exact ⟨_, _, _, rfl⟩

/-- Helper: every failure of `extractBySchemaType` is a `ParseObjectError`. -/
theorem extractBySchemaType_error_shape :
    ∀ (schema : Schema) (cs : List Char) (orig : String) (e : ThrownError),
      extractBySchemaType cs schema orig = .error e →
      ∃ m c t, e = .parseObjectError m c t
  | .array _, cs, orig, e, he => extractArray_error_shape cs orig e he
  | .object _, cs, orig, e, he => extractObject_error_shape cs orig e he
  | .boolean, _, _, _, he => Except.noConfusion he
  | .null, _, _, _, he => Except.noConfusion he
  | .number, _, _, _, he => Except.noConfusion he
  | .string, _, _, _, he => Except.noConfusion he
  | .union _, cs, orig, e, he => by
    simp only [extractBySchemaType] at he
    split at he
    · exact extractObject_error_shape cs orig e he
    · split at he
      · exact extractArray_error_shape cs orig e he
      · exact ⟨_, _, _, by injection he with h; exact h.symm⟩
  | .discUnion _ _, cs, orig, e, he => by
    simp only [extractBySchemaType] at he
    split at he
    · exact extractObject_error_shape cs orig e he
    · split at he
      · exact extractArray_error_shape cs orig e he
      · exact ⟨_, _, _, by injection he with h; exact h.symm⟩
  | .literal _, _, _, e, he => ⟨_, _, _, by injection he with h; exact h.symm⟩
  | .unsupported, _, _, e, he => ⟨_, _, _, by injection he with h; exact h.symm⟩
  | .optional inner, cs, orig, e, he =>
    extractBySchemaType_error_shape inner cs orig e he
  | .nullable inner, cs, orig, e, he =>
    extractBySchemaType_error_shape inner cs orig e he
  | .withDefault inner _, cs, orig, e, he =>
    extractBySchemaType_error_shape inner cs orig e he
  | .pipe inner, cs, orig, e, he =>
    extractBySchemaType_error_shape inner cs orig e he

/-- Helper: every failure of `parseObject` is a `ParseObjectError` — a
`ZodError` never escapes, it is wrapped with the fixed validation
message. -/
theorem parseObject_error_shape (text : String) (schema : Schema) (e : ThrownError)
    (he : parseObject text schema = .error e) :
    ∃ m c t, e = .parseObjectError m c t := by
  simp only [parseObject] at he
  split at he
  · next heq =>
    injection he with h
    exact h ▸ extractBySchemaType_error_shape schema _ text _ heq
  · split at he
    · cases he
    · exact ⟨_, _, _, by injection he with h; exact h.symm⟩

/-- Helper: the response path of `generateStructured` can never produce
`VALIDATION_FAILED`: every `parseObject` failure is a `ParseObjectError`
and is mapped to `PARSING_FAILED`. -/
theorem response_never_validation_failed (text : String) (schema : Schema) :
    (generateStructuredFromResponse text schema).errorCode
      ≠ some .VALIDATION_FAILED := by
  unfold generateStructuredFromResponse
  split
  · simp [generationFailure, GenerationResult.errorCode]
  · split
    · simp [generationSuccess, GenerationResult.errorCode]
    · next e heq =>
      rcases parseObject_error_shape _ _ _ heq with ⟨m, c, t, rfl⟩
      simp [generationFailure, GenerationResult.errorCode]

/-- C1 (code bug): on a response whose candidate is located and parsed
successfully but rejected by the schema, the Result-producing operation
reports `PARSING_FAILED` (with the validation wrapper's message), not
`VALIDATION_FAILED`: `parseObject` wraps the `ZodError` in a
`ParseObjectError`, and the `VALIDATION_FAILED` arm of `generateStructured`
is unreachable from this path for any text and schema. -/
theorem validation_failure_reported_as_parsing_failed :
    (generateStructuredFromResponse invalidScoreText scoreSchema).errorCode
      = some .PARSING_FAILED ∧
    (generateStructuredFromResponse invalidScoreText scoreSchema).errorMessage
      = some "Failed to validate response against schema" ∧
    extractBySchemaType (extractJsonString invalidScoreText.data) scoreSchema
      invalidScoreText = .ok (.obj [("score", .bool true)]) ∧
    ∀ (text : String) (schema : Schema),
      (generateStructuredFromResponse text schema).errorCode
        ≠ some .VALIDATION_FAILED := by
  have hx : extractBySchemaType (extractJsonString invalidScoreText.data) scoreSchema
      invalidScoreText = .ok (.obj [("score", .bool true)]) := rfl
  have hu : unescapeJsonValues (.obj [("score", .bool true)])
      = .obj [("score", .bool true)] := rfl
  have hv : Schema.validate scoreSchema (.obj [("score", .bool true)])
      = .error "invalid_type: expected number" := by
    have h1 : Schema.validate .number (.bool true)
        = .error "invalid_type: expected number" := by simp [Schema.validate]
    simp only [scoreSchema, Schema.validate, validateFields, lookupKey]
    simp [h1]
    rfl
  have hp : parseObject invalidScoreText scoreSchema
      = .error (.parseObjectError "Failed to validate response against schema"
          (some (.zodError "invalid_type: expected number")) (some invalidScoreText)) := by
    simp only [parseObject, hx, hu, hv]
  have hcond : ¬(invalidScoreText = "" ∨ jsTrim invalidScoreText = "") := by decide
  refine ⟨?_, ?_, hx, response_never_validation_failed⟩ <;>
    simp [generateStructuredFromResponse, hcond, hp, generationFailure,
      GenerationResult.errorCode, GenerationResult.errorMessage]

/-- C1 witness: the never-`VALIDATION_FAILED` conjunct applied at a
concrete input. -/
theorem validation_failure_witness :
    (generateStructuredFromResponse "abc" Schema.boolean).errorCode
      ≠ some .VALIDATION_FAILED :=
  validation_failure_reported_as_parsing_failed.2.2.2 "abc" Schema.boolean

/-- Helper: `indexOfChar` points at an occurrence of the character. -/
theorem indexOfChar_head (cs : List Char) (c : Char) (i : Nat)
    (h : indexOfChar cs c = some i) : (cs.drop i).head? = some c := by
  induction cs generalizing i with
  | nil => simp [indexOfChar] at h
  | cons x rest ih =>
    rw [indexOfChar] at h
    split at h
    · next hx =>
      injection h with h0
      subst h0
      simp [hx]
    · split at h
      · next j hj =>
        injection h with h0
        subst h0
        simpa [List.drop_succ_cons] using ih j hj
      · cases h

/-- Helper: a successful parse of input beginning with `{` is an object. -/
theorem parseJsonValue_obrace (fuel : Nat) (cs : List Char) (v : JsonValue)
    (r : List Char) (h : parseJsonValue fuel ('\x7b' :: cs) = some (v, r)) :
    ∃ kvs, v = .obj kvs := by
  match fuel with
  | 0 => simp [parseJsonValue] at h
  | f + 1 =>
    rw [parseJsonValue] at h
    split at h
    · next heq =>
      injection h with h0
      injection h0 with h1 h2
      exact ⟨[], h1.symm⟩
    · next heq =>
      cases hm : parseJsonMembers f (skipJsonWs cs) [] with
      | none => rw [hm] at h; cases h
      | some p =>
        rw [hm] at h
        cases p with
        | mk kvs r2 =>
          injection h with h0
          injection h0 with h1 h2
          exact ⟨kvs, h1.symm⟩

/-- Helper: `JSON.parse` of a text beginning with `{` yields an object when
it succeeds. -/
theorem jsonParseList_obrace (cs : List Char) (v : JsonValue)
    (hhead : cs.head? = some '\x7b') (h : jsonParseList cs = some v) :
    ∃ kvs, v = .obj kvs := by
  cases cs with
  | nil => simp at hhead
  | cons x rest =>
    have hx : x = '\x7b' := by simpa using hhead
    subst hx
    rw [jsonParseList] at h
    have hskip : skipJsonWs ('\x7b' :: rest) = '\x7b' :: rest := by
      simp [skipJsonWs, jsonWs]
    rw [hskip] at h
    cases hp : parseJsonValue (('\x7b' :: rest).length + 1) ('\x7b' :: rest) with
    | none => rw [hp] at h; cases h
    | some p =>
      rw [hp] at h
      obtain ⟨v2, r2⟩ := p
      dsimp only at h
      split at h
      · injection h with h0
        subst h0
        exact parseJsonValue_obrace _ _ _ _ hp
      · cases h

/-- Helper: a successful `extractObject` returns an object value. -/
theorem extractObject_ok_obj (cs : List Char) (orig : String) (v : JsonValue)
    (h : extractObject cs orig = .ok v) : ∃ kvs, v = .obj kvs := by
  simp only [extractObject] at h
  split at h
  · next s0 e0 h1 h2 =>
    split at h
    · next repaired hrep =>
      split at h
      · next v2 hparse =>
        injection h with h0
        subst h0
        -- the repaired text is the raw slice, whose head is `{`
        have hraw : repaired = sliceList cs s0 (e0 + 1) := by
          simp only [jsonrepair] at hrep
          split at hrep
          · injection hrep with h3; exact h3.symm
          · cases hrep
        subst hraw
        have hhd : (sliceList cs s0 (e0 + 1)).head? = some '\x7b' := by
          have hd := indexOfChar_head cs '\x7b' s0 h1
          cases hdrop : cs.drop s0 with
          | nil => rw [hdrop] at hd; cases hd
          | cons x rest =>
            rw [hdrop] at hd
            injection hd with h4
            subst h4
            cases hn : e0 + 1 - s0 with
            | zero =>
              -- an empty slice cannot parse: contradiction with hparse
              exfalso
              have : sliceList cs s0 (e0 + 1) = [] := by
                simp [sliceList, hn]
              rw [this] at hparse
              cases hparse
            | succ n =>
              simp [sliceList, hdrop, hn]
        exact jsonParseList_obrace _ _ hhd hparse
      · cases h
    · cases h
  · cases h

/-- C3 counterexample: with an object schema wrapped in
optional ∘ nullable ∘ default, a text holding no object candidate makes
extraction fail with `"No object found in response"` (surfacing as
`PARSING_FAILED`); the configured default is not substituted. -/
theorem wrapper_default_not_used :
    parseObject "no object here" wrappedNameSchema =
      .error (.parseObjectError "No object found in response" none
        (some "no object here")) ∧
    (generateStructuredFromResponse "no object here" wrappedNameSchema).errorCode
      = some .PARSING_FAILED := by
  have hp : parseObject "no object here" wrappedNameSchema =
      .error (.parseObjectError "No object found in response" none
        (some "no object here")) := rfl
  have hcond : ¬(("no object here" : String) = "" ∨ jsTrim "no object here" = "") := by
    decide
  have hc2 : ¬(jsTrim "no object here" = "") := by decide
  refine ⟨hp, ?_⟩
  simp [generateStructuredFromResponse, hcond, hc2, hp, generationFailure,
    GenerationResult.errorCode]

/-- C3 amended: wrapping an object schema in optional ∘ nullable ∘ default
is fully transparent to `parseObject`: on every text the wrapped and the
unwrapped schema produce identical outcomes — the same value when an object
candidate is locatable and parseable, and the same failure otherwise; the
configured default is never substituted by extraction. -/
theorem wrapper_transparency (text : String) (fields : List (String × Schema))
    (d : JsonValue) :
    parseObject text (.optional (.nullable (.withDefault (.object fields) d)))
      = parseObject text (.object fields) := by
  simp only [parseObject]
  have hext : extractBySchemaType (extractJsonString text.data)
      (.optional (.nullable (.withDefault (.object fields) d))) text
      = extractObject (extractJsonString text.data) text := rfl
  have hext2 : extractBySchemaType (extractJsonString text.data)
      (.object fields) text
      = extractObject (extractJsonString text.data) text := rfl
  rw [hext, hext2]
  cases hob : extractObject (extractJsonString text.data) text with
  | error e => rfl
  | ok v =>
    rcases extractObject_ok_obj _ _ _ hob with ⟨kvs, rfl⟩
    dsimp only
    have hu : unescapeJsonValues (.obj kvs) = .obj (unescapeEntries kvs) := rfl
    rw [hu]
    have hv : Schema.validate
        (.optional (.nullable (.withDefault (.object fields) d)))
        (.obj (unescapeEntries kvs))
        = Schema.validate (.object fields) (.obj (unescapeEntries kvs)) := by
      simp [Schema.validate]
    rw [hv]

/-- C8 counterexample: sanitization is not idempotent.  Removing the inner
citation artifact of this input concatenates its surroundings into a new
citation-artifact match, which only a second pass removes: the first pass
returns `"(oaicite:1){index=4}"`, the second pass the empty string. -/
theorem sanitize_not_idempotent :
    parseText nonIdemInput defaultParseTextOptions = "(oaicite:1)\x7bindex=4\x7d" ∧
    parseText (parseText nonIdemInput defaultParseTextOptions)
      defaultParseTextOptions = "" ∧
    (("(oaicite:1)\x7bindex=4\x7d" : String) == "") = false := ⟨rfl, rfl, rfl⟩

/-- Helper: a flat map whose function fixes every element is the
identity. -/
theorem flatMap_id_of {f : Char → List Char} (l : List Char)
    (h : ∀ a ∈ l, f a = [a]) : l.flatMap f = l := by
  induction l with
  | nil => rfl
  | cons x rest ih =>
    simp only [List.flatMap_cons, h x (List.mem_cons_self x rest)]
    simp [ih (fun a ha => h a (List.mem_cons_of_mem x ha))]

/-- Helper: a map whose function fixes every element is the identity. -/
theorem map_id_of {f : Char → Char} (l : List Char)
    (h : ∀ a ∈ l, f a = a) : l.map f = l := by
  rw [List.map_congr_left h]; exact List.map_id l

/-- Helper: NFKC is the identity on an ASCII character. -/
theorem nfkcChar_ascii (c : Char) (h : c.toNat < 128) : nfkcChar c = [c] := by
  simp only [nfkcChar]
  split
  · next hc => exfalso; revert hc; simp; omega
  · split
    · next hc => exfalso; revert hc; simp; omega
    · split
      · next hc => exfalso; revert hc; simp; omega
      · split
        · next hc => exfalso; revert hc; simp; omega
        · rfl

/-- Helper: no ASCII character is in the invisible-character class. -/
theorem isInvisibleChar_ascii (c : Char) (h : c.toNat < 128) :
    isInvisibleChar c = false := by
  simp only [isInvisibleChar, Bool.or_eq_false_iff, decide_eq_false_iff_not,
    decide_eq_true_eq, not_and, not_or]
  omega

/-- Helper: no ASCII character is space-like. -/
theorem isSpaceLike_ascii (c : Char) (h : c.toNat < 128) :
    isSpaceLike c = false := by
  simp only [isSpaceLike, Bool.or_eq_false_iff, decide_eq_false_iff_not,
    decide_eq_true_eq, not_and, not_or]
  omega

/-- Helper: no ASCII character is a separator dash. -/
theorem isSepDash_ascii (c : Char) (h : c.toNat < 128) :
    isSepDash c = false := by
  simp only [isSepDash, Bool.or_eq_false_iff, decide_eq_false_iff_not,
    decide_eq_true_eq, not_and, not_or]
  omega

/-- Helper: BOM stripping fixes ASCII text. -/
theorem stripBom_ascii (cs : List Char) (h : ∀ c ∈ cs, c.toNat < 128) :
    stripBom cs = cs := by
  cases cs with
  | nil => rfl
  | cons x rest =>
    have hx := h x (List.mem_cons_self x rest)
    simp only [stripBom]
    rw [if_neg (by omega)]

/-- Helper: CR normalization fixes CR-free text. -/
theorem normalizeCR_fixed (cs : List Char) (h : '\r' ∉ cs) :
    normalizeCR cs = cs := by
  induction cs using normalizeCR.induct with
  | case1 rest => exact absurd (List.mem_cons_self _ _) h
  | case2 rest hne => exact absurd (List.mem_cons_self _ _) h
  | case3 c rest hne1 hne2 ih =>
    rw [normalizeCR.eq_def]
    split
    · next heq =>
      exfalso
      injection heq with h1 h2
      exact h (h1 ▸ List.mem_cons_self _ _)
    · next heq =>
      exfalso
      injection heq with h1 h2
      exact h (h1 ▸ List.mem_cons_self _ _)
    · next c2 rest2 heq =>
      injection heq with h1 h2
      subst h1; subst h2
      rw [ih (fun hm => h (List.mem_cons_of_mem _ hm))]
    · next heq => cases heq
  | case4 => rfl

/-- Helper: NFKC fixes ASCII text. -/
theorem nfkc_ascii (cs : List Char) (h : ∀ c ∈ cs, c.toNat < 128) :
    nfkc cs = cs :=
  flatMap_id_of cs (fun a ha => nfkcChar_ascii a (h a ha))

/-- Helper: invisible-character removal fixes ASCII text. -/
theorem removeInvisible_ascii (cs : List Char) (h : ∀ c ∈ cs, c.toNat < 128) :
    removeInvisible cs = cs :=
  List.filter_eq_self.mpr (fun a ha => by simp [isInvisibleChar_ascii a (h a ha)])

/-- Helper: control-character removal fixes text with no banned
controls. -/
theorem removeAsciiCtrl_fixed (cs : List Char)
    (h : ∀ c ∈ cs, isAsciiCtrl c = false) : removeAsciiCtrl cs = cs :=
  List.filter_eq_self.mpr (fun a ha => by simp [h a ha])

/-- Helper: the dash-separator match fails on dash-free text. -/
theorem emDashTryAt_none (cs : List Char) (h : ∀ c ∈ cs, isSepDash c = false) :
    emDashTryAt cs = none := by
  simp only [emDashTryAt]
  cases hdw : cs.dropWhile jsWhitespaceChar with
  | nil => rfl
  | cons d rest =>
    have hd : d ∈ cs := by
      have := (List.dropWhile_suffix jsWhitespaceChar (l := cs)).subset
        (hdw ▸ List.mem_cons_self d rest)
      exact this
    simp [h d hd]

/-- Helper: the dash-to-comma replacement fixes dash-free text. -/
theorem emDashReplaceFuel_fixed (fuel : Nat) (cs : List Char)
    (h : ∀ c ∈ cs, isSepDash c = false) :
    emDashReplaceFuel fuel cs = cs := by
  induction fuel generalizing cs with
  | zero => cases cs <;> rfl
  | succ f ih =>
    cases cs with
    | nil => rfl
    | cons c rest =>
      have hnone : emDashTryAt (c :: rest) = none := emDashTryAt_none _ h
      have hstep : emDashReplaceFuel (f + 1) (c :: rest)
          = c :: emDashReplaceFuel f rest := by
        rw [emDashReplaceFuel, hnone]
        rfl
      rw [hstep, ih rest (fun a ha => h a (List.mem_cons_of_mem c ha))]

/-- Helper: the space-like conversion fixes ASCII text. -/
theorem spaceLikeToSpace_ascii (cs : List Char) (h : ∀ c ∈ cs, c.toNat < 128) :
    spaceLikeToSpace cs = cs :=
  map_id_of cs (fun a ha => by simp [isSpaceLike_ascii a (h a ha)])

/-- Helper: the typography replacements fix ASCII text. -/
theorem typoApply_ascii (cs : List Char) (h : ∀ c ∈ cs, c.toNat < 128) :
    typoApply cs = cs := by
  simp only [typoApply]
  rw [map_id_of cs (fun a ha => by
    rw [if_neg (by have := h a ha; simp only [Bool.or_eq_true, decide_eq_true_eq, not_or]; omega)])]
  rw [map_id_of cs (fun a ha => by
    rw [if_neg (by have := h a ha; simp only [Bool.or_eq_true, decide_eq_true_eq, not_or]; omega)])]
  rw [map_id_of cs (fun a ha => by
    rw [if_neg (by have := h a ha; simp only [Bool.or_eq_true, decide_eq_true_eq, not_or]; omega)])]
  rw [flatMap_id_of cs (fun a ha => by
    rw [if_neg (by have := h a ha; omega)])]
  rw [map_id_of cs (fun a ha => by
    rw [if_neg (by have := h a ha; simp only [Bool.or_eq_true, decide_eq_true_eq, not_or]; omega)])]

/-- Helper: space collapsing fixes text with no two adjacent spaces. -/
theorem collapseSpacesList_fixed (cs : List Char) (h : noTwoSpaces cs = true) :
    collapseSpacesList cs = cs := by
  induction cs with
  | nil => rfl
  | cons c rest ih =>
    cases rest with
    | nil =>
      by_cases hc : c = ' '
      · subst hc; rfl
      · rw [collapseSpacesList.eq_def]
        simp [hc, collapseSpacesList]
    | cons c2 r2 =>
      have hpair : ¬(c = ' ' ∧ c2 = ' ') := by
        intro ⟨h1, h2⟩
        simp [noTwoSpaces, h1, h2] at h
      have htail : noTwoSpaces (c2 :: r2) = true := by
        simp only [noTwoSpaces, Bool.and_eq_true] at h
        exact h.2
      rw [collapseSpacesList.eq_def]
      simp only []
      by_cases hc : c = ' '
      · subst hc
        rw [if_pos rfl]
        have hc2 : ¬(c2 = ' ') := fun he => hpair ⟨rfl, he⟩
        rw [if_neg hc2]
        simp [ih htail]
      · rw [if_neg hc]
        simp [ih htail]

/-- Helper: trailing-whitespace removal yields a prefix. -/
theorem dropTrailingWs_prefixOf (l : List Char) : dropTrailingWs l <+: l := by
  induction l with
  | nil => exact List.prefix_refl _
  | cons c rest ih =>
    simp only [dropTrailingWs]
    split
    · exact List.nil_prefix
    · exact List.cons_prefix_cons.mpr ⟨rfl, ih⟩

/-- Helper: trailing-whitespace removal is idempotent. -/
theorem dropTrailingWs_idem (l : List Char) :
    dropTrailingWs (dropTrailingWs l) = dropTrailingWs l := by
  induction l with
  | nil => rfl
  | cons c rest ih =>
    simp only [dropTrailingWs]
    split
    · rfl
    · next hcond =>
      simp only [dropTrailingWs, ih]
      rw [if_neg hcond]

/-- Helper: `dropWhile` changes nothing when the head fails the
predicate. -/
theorem dropWhile_eq_self_of_head (p : Char → Bool) (l : List Char)
    (h : ∀ c, l.head? = some c → p c = false) : l.dropWhile p = l := by
  cases l with
  | nil => rfl
  | cons x rest =>
    rw [List.dropWhile_cons, if_neg (by simp [h x rfl])]

/-- Helper: the head surviving `dropWhile` fails the predicate. -/
theorem dropWhile_head_not (p : Char → Bool) (cs : List Char) (c : Char)
    (h : (cs.dropWhile p).head? = some c) : p c = false := by
  induction cs with
  | nil => simp at h
  | cons x rest ih =>
    rw [List.dropWhile_cons] at h
    split at h
    · exact ih h
    · next hp =>
      injection h with h1
      subst h1
      simpa using hp

/-- Helper: JS trim is idempotent. -/
theorem jsTrimList_idem (cs : List Char) :
    jsTrimList (jsTrimList cs) = jsTrimList cs := by
  simp only [jsTrimList]
  set s1 := cs.dropWhile jsWhitespaceChar with hs1
  have hdw : (dropTrailingWs s1).dropWhile jsWhitespaceChar = dropTrailingWs s1 := by
    refine dropWhile_eq_self_of_head _ _ (fun c hc => ?_)
    have hpre : (dropTrailingWs s1) <+: s1 := dropTrailingWs_prefixOf s1
    have : s1.head? = some c := by
      rcases hpre with ⟨t, ht⟩
      cases hdt : dropTrailingWs s1 with
      | nil => rw [hdt] at hc; cases hc
      | cons x r =>
        rw [hdt] at hc
        injection hc with h1
        subst h1
        rw [← ht, hdt]
        rfl
    exact dropWhile_head_not jsWhitespaceChar cs c this
  rw [hdw, dropTrailingWs_idem]

/-- Helper: a prefix of a text with no two adjacent spaces has no two
adjacent spaces. -/
theorem noTwoSpaces_prefixOf (l1 l2 : List Char) (h : l1 <+: l2)
    (hn : noTwoSpaces l2 = true) : noTwoSpaces l1 = true := by
  induction l1 generalizing l2 with
  | nil => rfl
  | cons x t1 ih =>
    cases t1 with
    | nil => rfl
    | cons y t1' =>
      cases l2 with
      | nil => exact absurd (List.prefix_nil.mp h) (by simp)
      | cons x2 t2 =>
        rcases List.cons_prefix_cons.mp h with ⟨rfl, h2⟩
        cases t2 with
        | nil => exact absurd (List.prefix_nil.mp h2) (by simp)
        | cons y2 t2' =>
          rcases List.cons_prefix_cons.mp h2 with ⟨rfl, h3⟩
          simp only [noTwoSpaces, Bool.and_eq_true] at hn ⊢
          exact ⟨hn.1, ih (y :: t2')
            (List.cons_prefix_cons.mpr ⟨rfl, h3⟩) hn.2⟩

/-- Helper: dropping a head preserves no-two-spaces. -/
theorem noTwoSpaces_tail (c : Char) (l : List Char)
    (h : noTwoSpaces (c :: l) = true) : noTwoSpaces l = true := by
  cases l with
  | nil => rfl
  | cons y t =>
    simp only [noTwoSpaces, Bool.and_eq_true] at h
    exact h.2

/-- Helper: a suffix of a text with no two adjacent spaces has no two
adjacent spaces. -/
theorem noTwoSpaces_suffix (l1 l2 : List Char) (h : l1 <:+ l2)
    (hn : noTwoSpaces l2 = true) : noTwoSpaces l1 = true := by
  induction l2 with
  | nil => rw [List.suffix_nil.mp h]; rfl
  | cons c t ih =>
    rcases List.suffix_cons_iff.mp h with h1 | h1
    · rw [h1]; exact hn
    · exact ih h1 (noTwoSpaces_tail c t hn)

/-- Helper: extending with a non-clashing head preserves no-two-spaces. -/
theorem noTwoSpaces_cons (c : Char) (l : List Char)
    (hl : noTwoSpaces l = true)
    (hhd : ∀ y, l.head? = some y → ¬(c = ' ' ∧ y = ' ')) :
    noTwoSpaces (c :: l) = true := by
  cases l with
  | nil => rfl
  | cons y t =>
    simp only [noTwoSpaces, Bool.and_eq_true]
    refine ⟨?_, hl⟩
    have := hhd y rfl
    simp only [Bool.not_and, Bool.or_eq_true, Bool.not_eq_true', decide_eq_false_iff_not]
    tauto

/-- Helper: space collapsing leaves no two adjacent spaces. -/
theorem noTwoSpaces_collapse (cs : List Char) :
    noTwoSpaces (collapseSpacesList cs) = true := by
  induction cs using collapseSpacesList.induct with
  | case1 => rfl
  | case2 afterE ih =>
    have hstep : collapseSpacesList (' ' :: ' ' :: afterE)
        = collapseSpacesList (' ' :: afterE) := rfl
    rw [hstep]
    exact ih
  | case3 e afterE he ih =>
    have hstep : collapseSpacesList (' ' :: e :: afterE)
        = ' ' :: collapseSpacesList (e :: afterE) := by
      rw [collapseSpacesList.eq_def]
      simp [he]
    have hstep2 : collapseSpacesList (e :: afterE)
        = e :: collapseSpacesList afterE := by
      rw [collapseSpacesList.eq_def]
      simp [he]
    rw [hstep]
    refine noTwoSpaces_cons ' ' _ ih (fun y hy => ?_)
    rw [hstep2] at hy
    injection hy with h1
    subst h1
    exact fun hp => he hp.2
  | case4 => rfl
  | case5 c cs hc ih =>
    have hstep : collapseSpacesList (c :: cs) = c :: collapseSpacesList cs := by
      rw [collapseSpacesList.eq_def]
      cases cs <;> simp [hc]
    rw [hstep]
    exact noTwoSpaces_cons c _ ih (fun y hy hp => hc hp.1)

/-- Helper: BOM stripping only removes. -/
theorem stripBom_mem (cs : List Char) (c : Char) (h : c ∈ stripBom cs) :
    c ∈ cs := by
  cases cs with
  | nil => simp [stripBom] at h
  | cons x rest =>
    simp only [stripBom] at h
    split at h
    · exact List.mem_cons_of_mem x h
    · exact h

/-- Helper: CR normalization leaves no carriage return. -/
theorem normalizeCR_no_cr (cs : List Char) : '\r' ∉ normalizeCR cs := by
  induction cs using normalizeCR.induct with
  | case1 rest ih =>
    have hstep : normalizeCR ('\r' :: '\n' :: rest) = '\n' :: normalizeCR rest := rfl
    rw [hstep]
    intro hm
    rcases List.mem_cons.mp hm with h1 | h1
    · cases h1
    · exact ih h1
  | case2 rest hne ih =>
    have hstep : normalizeCR ('\r' :: rest) = '\n' :: normalizeCR rest := by
      rw [normalizeCR.eq_def]
      split
      · next rest1 heq =>
        injection heq with h1 h2
        exact absurd h2 (fun hh => hne rest1 hh)
      · next heq =>
        injection heq with h1 h2
        rw [h2]
      · next c2 rest2 hc1 hc2 heq =>
        injection heq with h1 h2
        exact absurd h1.symm hc2
      · next heq => cases heq
    rw [hstep]
    intro hm
    rcases List.mem_cons.mp hm with h1 | h1
    · cases h1
    · exact ih h1
  | case3 c rest hne1 hne2 ih =>
    intro hm
    have hstep : normalizeCR (c :: rest) = c :: normalizeCR rest := by
      rw [normalizeCR.eq_def]
      split
      · next heq => injection heq with h1 h2; exact absurd h1 hne2
      · next heq =>
        injection heq with h1 h2
        exact absurd h1 hne2
      · next heq =>
        injection heq with h1 h2
        rw [h1, h2]
      · next heq => cases heq
    rw [hstep] at hm
    rcases List.mem_cons.mp hm with h1 | h1
    · exact hne2 h1.symm
    · exact ih h1
  | case4 => simp [normalizeCR]

/-- Helper: the remainder of `spanDigits` is a suffix. -/
theorem spanDigits_suffix (cs ds r : List Char) (h : spanDigits cs = (ds, r)) :
    r <:+ cs := by
  induction cs generalizing ds r with
  | nil =>
    simp only [spanDigits] at h
    injection h with h1 h2
    exact h2 ▸ List.suffix_refl _
  | cons x rest ih =>
    rw [spanDigits] at h
    split at h
    · cases hsp : spanDigits rest with
      | mk ds2 r2 =>
        rw [hsp] at h
        injection h with h1 h2
        subst h2
        exact (ih ds2 r2 hsp).trans (List.suffix_cons x rest)
    · injection h with h1 h2
      exact h2 ▸ List.suffix_refl _

/-- Helper: the remainder of a literal-prefix drop is a suffix. -/
theorem dropExact_suffix (ps cs r : List Char)
    (h : dropExact ps cs = some r) : r <:+ cs := by
  induction ps generalizing cs with
  | nil =>
    simp only [dropExact] at h
    injection h with h1
    exact h1 ▸ List.suffix_refl _
  | cons p ps2 ih =>
    cases cs with
    | nil => simp [dropExact] at h
    | cons c2 rest =>
      rw [dropExact] at h
      split at h
      · exact (ih rest h).trans (List.suffix_cons c2 rest)
      · cases h

/-- Helper: the remainder of `expectChar` is a suffix. -/
theorem expectChar_suffix (c : Char) (cs r : List Char)
    (h : expectChar c cs = some r) : r <:+ cs := by
  cases cs with
  | nil => cases h
  | cons x rest =>
    rw [expectChar] at h
    split at h
    · injection h with h1
      exact h1 ▸ List.suffix_cons x rest
    · cases h

/-- Helper: the remainder of a citation match is a suffix of the input. -/
theorem citationTryAt_suffix (cs r : List Char) (h : citationTryAt cs = some r) :
    r <:+ cs := by
  simp only [citationTryAt] at h
  split at h
  · next r2 hdrop =>
    have s1 : r2 <:+ cs :=
      (dropExact_suffix _ _ _ hdrop).trans (List.dropWhile_suffix _)
    split at h
    · cases h
    · next ds r3 hsp =>
      have s2 : r3 <:+ r2 := spanDigits_suffix _ _ _ hsp
      split at h
      · next r4 hexp =>
        have s3 : r4 <:+ r3 := expectChar_suffix _ _ _ hexp
        split at h
        · next r5 hdrop2 =>
          have s4 : r5 <:+ r4 := dropExact_suffix _ _ _ hdrop2
          split at h
          · cases h
          · next ds2 r6 hsp2 =>
            have s5 : r6 <:+ r5 := spanDigits_suffix _ _ _ hsp2
            have s6 : r <:+ r6 := expectChar_suffix _ _ _ h
            exact (((((s6.trans s5).trans s4).trans s3).trans s2).trans s1)
        · cases h
      · cases h
  · cases h

/-- Helper: citation removal only removes. -/
theorem removeCitationsFuel_mem (fuel : Nat) (cs : List Char) (c : Char)
    (h : c ∈ removeCitationsFuel fuel cs) : c ∈ cs := by
  induction fuel generalizing cs with
  | zero => exact h
  | succ f ih =>
    cases cs with
    | nil => exact h
    | cons c0 rest =>
      cases hm : citationTryAt (c0 :: rest) with
      | some rem =>
        have hstep : removeCitationsFuel (f + 1) (c0 :: rest)
            = removeCitationsFuel f rem := by
          rw [removeCitationsFuel, hm]
          rfl
        rw [hstep] at h
        exact (citationTryAt_suffix _ _ hm).subset (ih rem h)
      | none =>
        have hstep : removeCitationsFuel (f + 1) (c0 :: rest)
            = c0 :: removeCitationsFuel f rest := by
          rw [removeCitationsFuel, hm]
          rfl
        rw [hstep] at h
        rcases List.mem_cons.mp h with h1 | h1
        · exact h1 ▸ List.mem_cons_self c0 rest
        · exact List.mem_cons_of_mem c0 (ih rest h1)

/-- Helper: NFKC output characters come from the input or from the model's
replacement characters. -/
theorem nfkc_mem (cs : List Char) (c : Char) (h : c ∈ nfkc cs) :
    c ∈ cs ∨ c ∈ [' ', '.', 'f', 'i', 'l'] := by
  rcases List.mem_flatMap.mp h with ⟨a, ha, hc⟩
  simp only [nfkcChar] at hc
  split at hc
  · right; simp at hc; simp [hc]
  · split at hc
    · right; simp at hc; simp [hc]
    · split at hc
      · right
        rcases List.mem_cons.mp hc with h1 | h1
        · simp [h1]
        · rcases List.mem_cons.mp h1 with h2 | h2
          · simp [h2]
          · simp at h2
      · split at hc
        · right
          rcases List.mem_cons.mp hc with h1 | h1
          · simp [h1]
          · rcases List.mem_cons.mp h1 with h2 | h2
            · simp [h2]
            · simp at h2
        · left
          rcases List.mem_cons.mp hc with h1 | h1
          · exact h1 ▸ ha
          · simp at h1

/-- Helper: the remainder of a dash-separator match is a suffix. -/
theorem emDashTryAt_suffix (cs r : List Char) (h : emDashTryAt cs = some r) :
    r <:+ cs := by
  simp only [emDashTryAt] at h
  split at h
  · next d rest hdw =>
    split at h
    · split at h
      · injection h with h1
        subst h1
        have s1 : (d :: rest) <:+ cs := hdw ▸ List.dropWhile_suffix _
        have s2 : rest <:+ d :: rest := List.suffix_cons d rest
        exact ((List.dropWhile_suffix _).trans s2).trans s1
      · cases h
    · cases h
  · cases h

/-- Helper: dash-to-comma output characters come from the input or are a
comma or space. -/
theorem emDashReplaceFuel_mem (fuel : Nat) (cs : List Char) (c : Char)
    (h : c ∈ emDashReplaceFuel fuel cs) : c ∈ cs ∨ c = ',' ∨ c = ' ' := by
  induction fuel generalizing cs with
  | zero => exact Or.inl h
  | succ f ih =>
    cases cs with
    | nil => exact Or.inl h
    | cons c0 rest =>
      cases hm : emDashTryAt (c0 :: rest) with
      | some rem =>
        have hstep : emDashReplaceFuel (f + 1) (c0 :: rest)
            = ',' :: ' ' :: emDashReplaceFuel f rem := by
          rw [emDashReplaceFuel, hm]
          rfl
        rw [hstep] at h
        rcases List.mem_cons.mp h with h1 | h1
        · exact Or.inr (Or.inl h1)
        · rcases List.mem_cons.mp h1 with h2 | h2
          · exact Or.inr (Or.inr h2)
          · rcases ih rem h2 with h3 | h3
            · exact Or.inl ((emDashTryAt_suffix _ _ hm).subset h3)
            · exact Or.inr h3
      | none =>
        have hstep : emDashReplaceFuel (f + 1) (c0 :: rest)
            = c0 :: emDashReplaceFuel f rest := by
          rw [emDashReplaceFuel, hm]
          rfl
        rw [hstep] at h
        rcases List.mem_cons.mp h with h1 | h1
        · exact Or.inl (h1 ▸ List.mem_cons_self c0 rest)
        · rcases ih rest h1 with h3 | h3
          · exact Or.inl (List.mem_cons_of_mem c0 h3)
          · exact Or.inr h3

/-- Helper: a conditional character map produces input characters or the
replacement. -/
theorem mem_map_ifchar (cond : Char → Bool) (r : Char) (l : List Char)
    (c : Char) (h : c ∈ l.map (fun a => if cond a then r else a)) :
    c ∈ l ∨ c = r := by
  rcases List.mem_map.mp h with ⟨a, ha, hc⟩
  by_cases hca : cond a
  · rw [if_pos hca] at hc
    exact Or.inr hc.symm
  · rw [if_neg hca] at hc
    exact Or.inl (hc ▸ ha)

/-- Helper: the ellipsis expansion produces input characters or dots. -/
theorem mem_flatMap_ell (l : List Char) (c : Char)
    (h : c ∈ l.flatMap (fun a => if a.toNat = 0x2026 then ['.', '.', '.'] else [a])) :
    c ∈ l ∨ c = '.' := by
  rcases List.mem_flatMap.mp h with ⟨a, ha, hc⟩
  by_cases hca : a.toNat = 0x2026
  · rw [if_pos hca] at hc
    right
    rcases List.mem_cons.mp hc with h1 | h1
    · exact h1
    · rcases List.mem_cons.mp h1 with h2 | h2
      · exact h2
      · simpa using h2
  · rw [if_neg hca] at hc
    left
    rcases List.mem_cons.mp hc with h1 | h1
    · exact h1 ▸ ha
    · simp at h1

/-- Helper: typography replacement characters come from the input or are
ASCII punctuation. -/
theorem typoApply_mem (cs : List Char) (c : Char) (h : c ∈ typoApply cs) :
    c ∈ cs ∨ c ∈ ['\'', '"', '-', '.'] := by
  simp only [typoApply] at h
  rcases mem_map_ifchar _ _ _ _ h with h5 | h5
  · rcases mem_flatMap_ell _ _ h5 with h4 | h4
    · rcases mem_map_ifchar _ _ _ _ h4 with h3 | h3
      · rcases mem_map_ifchar _ _ _ _ h3 with h2 | h2
        · rcases mem_map_ifchar _ _ _ _ h2 with h1 | h1
          · exact Or.inl h1
          · subst h1; right; simp
        · subst h2; right; simp
      · subst h3; right; simp
    · subst h4; right; simp
  · subst h5; right; simp

/-- Helper: space-collapsing output characters come from the input or are
a space. -/
theorem collapseSpacesList_mem (cs : List Char) (c : Char)
    (h : c ∈ collapseSpacesList cs) : c ∈ cs ∨ c = ' ' := by
  induction cs using collapseSpacesList.induct with
  | case1 => exact Or.inl h
  | case2 afterE ih =>
    have hstep : collapseSpacesList (' ' :: ' ' :: afterE)
        = collapseSpacesList (' ' :: afterE) := rfl
    rw [hstep] at h
    rcases ih h with h1 | h1
    · exact Or.inl (List.mem_cons_of_mem ' ' h1)
    · exact Or.inr h1
  | case3 e afterE he ih =>
    have hstep : collapseSpacesList (' ' :: e :: afterE)
        = ' ' :: collapseSpacesList (e :: afterE) := by
      rw [collapseSpacesList.eq_def]
      simp [he]
    rw [hstep] at h
    rcases List.mem_cons.mp h with h1 | h1
    · exact Or.inr h1
    · rcases ih h1 with h2 | h2
      · exact Or.inl (List.mem_cons_of_mem ' ' h2)
      · exact Or.inr h2
  | case4 =>
    have hstep : collapseSpacesList [' '] = [' '] := rfl
    rw [hstep] at h
    rcases List.mem_cons.mp h with h1 | h1
    · exact Or.inr h1
    · simp at h1
  | case5 c0 cs0 hc ih =>
    have hstep : collapseSpacesList (c0 :: cs0) = c0 :: collapseSpacesList cs0 := by
      rw [collapseSpacesList.eq_def]
      cases cs0 <;> simp [hc]
    rw [hstep] at h
    rcases List.mem_cons.mp h with h1 | h1
    · exact Or.inl (h1 ▸ List.mem_cons_self c0 cs0)
    · rcases ih h1 with h2 | h2
      · exact Or.inl (List.mem_cons_of_mem c0 h2)
      · exact Or.inr h2

/-- Helper: trimming only removes. -/
theorem jsTrimList_mem (cs : List Char) (c : Char) (h : c ∈ jsTrimList cs) :
    c ∈ cs := by
  simp only [jsTrimList] at h
  exact (List.dropWhile_suffix _).subset
    ((dropTrailingWs_prefixOf _).subset h)

/-- Helper: space-like conversion output characters come from the input or
are a space. -/
theorem spaceLikeToSpace_mem (cs : List Char) (c : Char)
    (h : c ∈ spaceLikeToSpace cs) : c ∈ cs ∨ c = ' ' :=
  mem_map_ifchar isSpaceLike ' ' cs c h

/-- Helper: surviving the control filter means not a banned control. -/
theorem removeAsciiCtrl_mem (cs : List Char) (c : Char)
    (h : c ∈ removeAsciiCtrl cs) : c ∈ cs ∧ isAsciiCtrl c = false := by
  have := List.mem_filter.mp h
  exact ⟨this.1, by simpa using this.2⟩

/-- Helper: the invisible filter only removes. -/
theorem removeInvisible_mem (cs : List Char) (c : Char)
    (h : c ∈ removeInvisible cs) : c ∈ cs :=
  (List.mem_filter.mp h).1

/-- Helper: the sanitized text contains no carriage return (the CR
normalization removes every `\r` and no later stage reintroduces one). -/
theorem parseTextList_no_cr (cs : List Char) :
    '\r' ∉ parseTextList cs defaultParseTextOptions := by
  cases cs with
  | nil => simp [parseTextList]
  | cons c0 rest =>
    intro hm
    simp only [parseTextList, defaultParseTextOptions] at hm
    rw [if_pos trivial, if_pos trivial] at hm
    have h2 := jsTrimList_mem _ _ hm
    rcases collapseSpacesList_mem _ _ h2 with h3 | h3
    swap
    · exact absurd h3 (by decide)
    rcases typoApply_mem _ _ h3 with h4 | h4
    swap
    · simp at h4
    rcases spaceLikeToSpace_mem _ _ h4 with h5 | h5
    swap
    · exact absurd h5 (by decide)
    rcases emDashReplaceFuel_mem _ _ _ h5 with h6 | h6
    swap
    · rcases h6 with h6 | h6 <;> exact absurd h6 (by decide)
    have h7 := (removeAsciiCtrl_mem _ _ h6).1
    have h8 := removeInvisible_mem _ _ h7
    rcases nfkc_mem _ _ h8 with h9 | h9
    swap
    · simp at h9
    have h10 := removeCitationsFuel_mem _ _ _ h9
    exact normalizeCR_no_cr _ h10

/-- Helper: the sanitized text contains no banned control character. -/
theorem parseTextList_no_ctrl (cs : List Char) :
    ∀ c ∈ parseTextList cs defaultParseTextOptions, isAsciiCtrl c = false := by
  cases cs with
  | nil => simp [parseTextList]
  | cons c0 rest =>
    intro c hm
    simp only [parseTextList, defaultParseTextOptions] at hm
    rw [if_pos trivial, if_pos trivial] at hm
    have h2 := jsTrimList_mem _ _ hm
    rcases collapseSpacesList_mem _ _ h2 with h3 | h3
    swap
    · subst h3; decide
    rcases typoApply_mem _ _ h3 with h4 | h4
    swap
    · simp only [List.mem_cons, List.not_mem_nil, or_false] at h4
      rcases h4 with h | h | h | h <;> (subst h; decide)
    rcases spaceLikeToSpace_mem _ _ h4 with h5 | h5
    swap
    · subst h5; decide
    rcases emDashReplaceFuel_mem _ _ _ h5 with h6 | h6
    swap
    · rcases h6 with h6 | h6 <;> (subst h6; decide)
    exact (removeAsciiCtrl_mem _ _ h6).2

/-- Helper: the trimmed collapse of any text has no two adjacent spaces. -/
theorem noTwoSpaces_trim_collapse (l : List Char) :
    noTwoSpaces (jsTrimList (collapseSpacesList l)) = true :=
  noTwoSpaces_prefixOf _ _ (dropTrailingWs_prefixOf _)
    (noTwoSpaces_suffix _ _ (List.dropWhile_suffix _) (noTwoSpaces_collapse l))

/-- Helper: the sanitized text has no two adjacent spaces. -/
theorem parseTextList_noTwoSpaces (cs : List Char) :
    noTwoSpaces (parseTextList cs defaultParseTextOptions) = true := by
  cases cs with
  | nil => rfl
  | cons c0 rest =>
    simp only [parseTextList, defaultParseTextOptions]
    rw [if_pos trivial, if_pos trivial]
    exact noTwoSpaces_trim_collapse _

/-- Helper: the sanitized text is trimmed. -/
theorem parseTextList_trimmed (cs : List Char) :
    jsTrimList (parseTextList cs defaultParseTextOptions)
      = parseTextList cs defaultParseTextOptions := by
  cases cs with
  | nil => rfl
  | cons c0 rest =>
    simp only [parseTextList, defaultParseTextOptions]
    rw [if_pos trivial, if_pos trivial]
    exact jsTrimList_idem _

/-- Helper: the sanitizer fixes any text that is ASCII, free of carriage
returns, banned controls, double spaces and edge whitespace, and free of
citation-artifact matches — every pass-two stage is then the identity. -/
theorem parseTextList_fixed (y : List Char)
    (hascii : ∀ c ∈ y, c.toNat < 128)
    (hcr : '\r' ∉ y)
    (hctrl : ∀ c ∈ y, isAsciiCtrl c = false)
    (hnts : noTwoSpaces y = true)
    (htrim : jsTrimList y = y)
    (hcit : removeCitations y = y) :
    parseTextList y defaultParseTextOptions = y := by
  cases y with
  | nil => rfl
  | cons c0 rest =>
    simp only [parseTextList, defaultParseTextOptions]
    rw [if_pos trivial, if_pos trivial]
    rw [stripBom_ascii _ hascii]
    rw [normalizeCR_fixed _ hcr]
    rw [show removeCitations (c0 :: rest) = c0 :: rest from hcit]
    rw [nfkc_ascii _ hascii]
    rw [removeInvisible_ascii _ hascii]
    rw [removeAsciiCtrl_fixed _ hctrl]
    rw [show emDashReplace (c0 :: rest) = c0 :: rest from
      emDashReplaceFuel_fixed _ _ (fun c hc => isSepDash_ascii c (hascii c hc))]
    rw [spaceLikeToSpace_ascii _ hascii]
    rw [typoApply_ascii _ hascii]
    rw [collapseSpacesList_fixed _ hnts]
    exact htrim

/-- C8 amended: sanitization with the default toggles is idempotent on
every input whose sanitized form is ASCII and free of citation-artifact
matches (in general it is not idempotent: citation removal can concatenate
text into a new citation match, and stripping an invisible character can
leave a combining sequence that is no longer NFKC-normalized). -/
theorem sanitize_idempotent_on_ascii (x : String)
    (hascii : ∀ c ∈ (parseText x defaultParseTextOptions).data, c.toNat < 128)
    (hcit : removeCitations (parseText x defaultParseTextOptions).data
        = (parseText x defaultParseTextOptions).data) :
    parseText (parseText x defaultParseTextOptions) defaultParseTextOptions
      = parseText x defaultParseTextOptions := by
  have hfix : parseTextList (parseTextList x.data defaultParseTextOptions)
      defaultParseTextOptions = parseTextList x.data defaultParseTextOptions :=
    parseTextList_fixed _ hascii (parseTextList_no_cr _) (parseTextList_no_ctrl _)
      (parseTextList_noTwoSpaces _) (parseTextList_trimmed _) hcit
  show String.mk (parseTextList (parseTextList x.data defaultParseTextOptions)
      defaultParseTextOptions) = String.mk (parseTextList x.data defaultParseTextOptions)
  rw [hfix]

/-- C8 witness: the idempotence theorem applied to a concrete input whose
sanitized form is ASCII and citation-free. -/
theorem sanitize_idempotent_witness :
    parseText (parseText "hello   world" defaultParseTextOptions)
      defaultParseTextOptions = parseText "hello   world" defaultParseTextOptions ∧
    parseText "hello   world" defaultParseTextOptions = "hello world" :=
  ⟨sanitize_idempotent_on_ascii "hello   world" (by decide) (by decide), rfl⟩
